import Mathlib

/-!
Verification development for `archive_mail.py`, an incremental IMAP mailbox
archiver.  The Python source is shallowly embedded below: strings are
`List Char`, the filesystem / zip archive is an explicit `Storage` record,
and the network (mailbox listing, per-mailbox message counts, per-batch fetch
responses, interrupts) together with write success is an explicit environment
passed to the run functions.  Unicode-dependent predicates (`str.isalnum`,
`str.strip`, the `\d` class and `[a-z]` under `re.IGNORECASE`) are modelled
for code points below 0x100, which covers every input appearing in this
development; `int(...)` / `str(...)` on message sequence numbers are modelled
for ASCII decimal digits, which is what the program itself produces.
-/

/-- Strings of the embedding: Python `str` as a list of characters. -/
abbrev Str := List Char

/-- ASCII decimal digit, the `[0-9]` class (and `\d` restricted to ASCII). -/
def isAsciiDigit (c : Char) : Bool :=
  48 ≤ c.toNat && c.toNat ≤ 57

/-- ASCII letter: the `[a-z]` class under `re.IGNORECASE` (ASCII fragment). -/
def isAsciiLetter (c : Char) : Bool :=
  (97 ≤ c.toNat && c.toNat ≤ 122) || (65 ≤ c.toNat && c.toNat ≤ 90)

/-- ASCII lower-casing of a code point, for case-insensitive matching. -/
def toLowerN (n : Nat) : Nat :=
  if 65 ≤ n ∧ n ≤ 90 then n + 32 else n

/-- Case-insensitive character equality (ASCII), as used by `re.IGNORECASE`. -/
def lcEq (c d : Char) : Bool :=
  toLowerN c.toNat = toLowerN d.toNat

/-- Whitespace stripped by Python `str.strip()` (ASCII fragment). -/
def pyIsSpace (c : Char) : Bool :=
  c = ' ' || c = '\t' || c = '\n' || c = '\x0d' || c = '\x0b' || c = '\x0c'

/-- Python `str.isalnum` for a single character, modelled for code points
below 0x100: ASCII alphanumerics, the Latin-1 letters U+00C0..U+00FF except
the multiplication and division signs, and the Latin-1 numeric / letter-like
characters `ª ² ³ µ ¹ º ¼ ½ ¾`. -/
def pyIsAlnum (c : Char) : Bool :=
  isAsciiDigit c || isAsciiLetter c ||
  (c.toNat = 0xAA || c.toNat = 0xB2 || c.toNat = 0xB3 || c.toNat = 0xB5 ||
   c.toNat = 0xB9 || c.toNat = 0xBA || c.toNat = 0xBC || c.toNat = 0xBD ||
   c.toNat = 0xBE ||
   (0xC0 ≤ c.toNat && c.toNat ≤ 0xFF && c.toNat ≠ 0xD7 && c.toNat ≠ 0xF7))

/-- The character filter of `sanitize_string`: keep `c` when
`c in ("@", "-", "_", ".", " ") or c.isalnum()`. -/
def keepChar (c : Char) : Bool :=
  c = '@' || c = '-' || c = '_' || c = '.' || c = ' ' || pyIsAlnum c

/-- Match the regex alternative `utf-[0-9][a-z]` (case-insensitive) at the
head of the list, returning the matched length. -/
def matchUtf : Str → Option Nat
  | u :: t :: f :: h :: d :: l :: _ =>
    if lcEq u 'u' && lcEq t 't' && lcEq f 'f' && h = '-' &&
       isAsciiDigit d && isAsciiLetter l then some 6 else none
  | _ => none

/-- Match the regex alternative `iso-[0-9]+-[0-9][a-z]` (case-insensitive) at
the head of the list, returning the matched length.  `[0-9]+` is greedy and,
being followed by `-`, matches exactly the maximal leading digit run. -/
def matchIso (s : Str) : Option Nat :=
  match s with
  | i :: s' :: o :: h :: rest =>
    if lcEq i 'i' && lcEq s' 's' && lcEq o 'o' && h = '-' then
      let ds := rest.takeWhile isAsciiDigit
      if ds = [] then none
      else
        match rest.drop ds.length with
        | h2 :: d :: l :: _ =>
          if h2 = '-' && isAsciiDigit d && isAsciiLetter l then
            some (4 + ds.length + 3)
          else none
        | _ => none
    else none
  | _ => none

/-- Leftmost match of `utf-[0-9][a-z]|iso-[0-9]+-[0-9][a-z]` at the head of
the list (first alternative preferred, as in Python `re`). -/
def reMatchAt (s : Str) : Option Nat :=
  match matchUtf s with
  | some n => some n
  | none => matchIso s

/-- Worker for `re.sub` with empty replacement: delete every leftmost
non-overlapping match, scanning left to right.  The fuel argument only makes
the recursion structural; it never runs out when started at the string's
length, because every match is at least one character long. -/
def reSubGo : Nat → Str → Str
  | _, [] => []
  | 0, s => s
  | fuel + 1, c :: cs =>
    match reMatchAt (c :: cs) with
    | some n => reSubGo fuel (cs.drop (n - 1))
    | none => c :: reSubGo fuel cs

/-- `re.sub(r"utf-[0-9][a-z]|iso-[0-9]+-[0-9][a-z]", "", s, flags=IGNORECASE)`. -/
def reSub (s : Str) : Str :=
  reSubGo s.length s

/-- Python `str.strip()`: drop leading and trailing whitespace. -/
def pyStrip (s : Str) : Str :=
  ((s.dropWhile pyIsSpace).reverse.dropWhile pyIsSpace).reverse

/-- `sanitize_string` (archive_mail.py, lines 32-37).  A `None` argument makes
`re.sub` raise, which the bare `except` turns into `None`; a string argument
is charset-stripped, whitespace-trimmed, filtered to the safe character set
and truncated to 35 characters. -/
def sanitize_string : Option Str → Option Str
  | none => none
  | some s => some (((pyStrip (reSub s)).filter keepChar).take 35)

/-- Python `or` fallback on a sanitized header: `None` and the empty string
are falsy, so they are replaced by the fixed token. -/
def fallback (o : Option Str) (d : Str) : Str :=
  match o with
  | none => d
  | some s => if s = [] then d else s

/-- Boolean prefix test on character lists (our own, proof-friendly). -/
def leadsList : Str → Str → Bool
  | [], _ => true
  | _ :: _, [] => false
  | a :: as, b :: bs => a = b && leadsList as bs

/-- Python substring test `needle in hay`. -/
def containsSub (needle : Str) : Str → Bool
  | [] => leadsList needle []
  | c :: rest => leadsList needle (c :: rest) || containsSub needle rest

/-- Worker for Python `str.split(sep)` with non-empty `sep`: leftmost
non-overlapping occurrences separate the pieces.  The fuel argument only
makes the recursion structural; started at the string's length it never runs
out, because the separator is non-empty. -/
def pySplitGo (sep : Str) : Nat → Str → Str → List Str
  | _, [], acc => [acc.reverse]
  | 0, s, acc => [acc.reverse ++ s]
  | fuel + 1, c :: rest, acc =>
    if sep ≠ [] ∧ leadsList sep (c :: rest) then
      acc.reverse :: pySplitGo sep fuel ((c :: rest).drop sep.length) []
    else
      pySplitGo sep fuel rest (c :: acc)

/-- Python `str.split(sep)`.  Python raises on an empty separator; the
program only ever splits on `","` and on `mailbox + "/"`, both non-empty, so
the `sep = []` case is totalised to `[s]`. -/
def pySplit (sep s : Str) : List Str :=
  if sep = [] then [s] else pySplitGo sep s.length s []

/-- One decimal digit as a character. -/
def digitChar : Nat → Char
  | 0 => '0' | 1 => '1' | 2 => '2' | 3 => '3' | 4 => '4'
  | 5 => '5' | 6 => '6' | 7 => '7' | 8 => '8' | 9 => '9'
  | _ => '*'

/-- Decimal digits of a positive number, most significant first.  The fuel
argument only makes the recursion structural; `n` itself is always enough
fuel since `n / 10 < n`. -/
def natReprAux : Nat → Nat → Str
  | _, 0 => []
  | 0, _ + 1 => []
  | fuel + 1, n + 1 => natReprAux fuel ((n + 1) / 10) ++ [digitChar ((n + 1) % 10)]

/-- Python `str(n)` for a natural number: decimal digits, most significant
first. -/
def natRepr (n : Nat) : Str :=
  if n = 0 then ['0'] else natReprAux n n

/-- Python `int(s)` on a string of ASCII decimal digits. -/
def natOfDigits (s : Str) : Nat :=
  s.foldl (fun a c => 10 * a + (c.toNat - 48)) 0

/-- One step of the inventory scan (archive_mail.py, lines 84-85): an entry
name contributes `int(name.split("_")[0])` exactly when it matches the
anchored regex `\d+_`, i.e. starts with one or more digits followed by  `_`. -/
def digitPrefixId (s : Str) : Option Nat :=
  let ds := s.takeWhile isAsciiDigit
  if ds = [] then none
  else
    match s.drop ds.length with
    | '_' :: _ => some (natOfDigits ds)
    | _ => none

/-- The storage backend state: whether `<dir>/mails.zip` exists, its entries
(internal paths, in append order), the set of created directories, and the
written files as (directory path, file name) pairs.  File contents are not
tracked: every claim in this development is about which entries exist. -/
structure Storage where
  archiveExists : Bool
  archiveEntries : List Str
  dirs : List Str
  files : List (Str × Str)
deriving DecidableEq

/-- `Path(p).mkdir(parents=True, exist_ok=True)`. -/
def mkdirP (st : Storage) (p : Str) : Storage :=
  { st with dirs := st.dirs.insert p }

/-- `os.listdir(p)`: the names of files under directory `p`. -/
def listdir (st : Storage) (p : Str) : List Str :=
  st.files.filterMap (fun q => if q.1 = p then some q.2 else none)

/-- `ZipFile(archive_path, "a").writestr(entry, ...)`: opening in append mode
creates the archive when absent, and the entry is appended. -/
def archiveWrite (st : Storage) (entry : Str) : Storage :=
  { st with archiveExists := true, archiveEntries := st.archiveEntries ++ [entry] }

/-- `open(p + "/" + n, "wb").write(...)`: a fresh name is added, writing an
existing name overwrites it in place (contents are not tracked). -/
def writeFile (st : Storage) (p n : Str) : Storage :=
  { st with files := if (p, n) ∈ st.files then st.files else st.files ++ [(p, n)] }

/-- The command-line / config arguments that the mailbox loop reads
(archive_mail.py, argparse block): `includeArg` and `excludeArg` are the raw
comma-separated strings. -/
structure Args where
  dir : Str
  includeArg : Str
  excludeArg : Str
  all : Bool
  batchSize : Nat
  dryRun : Bool
  listMailboxes : Bool
  zip : Bool
deriving DecidableEq

/-- A parsed message, as far as the program looks at it: the `Subject` and
`From` header values (absent headers give `None`). -/
structure Msg where
  subject : Option Str
  fromAddr : Option Str
deriving DecidableEq

/-- One element of a raw fetch response: a framing token (`b')'`, `b'('`,
`b''`, dropped by the filter on line 100) or a payload whose parse either
yields a message or raises. -/
inductive FetchItem where
  | frame : FetchItem
  | payload : Option Msg → FetchItem
deriving DecidableEq

/-- What the environment does at one batch: the fetch call succeeds with a
raw response, raises a protocol error, or a `KeyboardInterrupt` arrives. -/
inductive BatchEvent where
  | ok : List FetchItem → BatchEvent
  | fetchFail : BatchEvent
  | interrupt : BatchEvent
deriving DecidableEq

/-- `included = list(filter(len, args.include.split(",")))`. -/
def includedList (args : Args) : List Str :=
  (pySplit [','] args.includeArg).filter (fun s => s ≠ [])

/-- `excluded = list(filter(len, args.exclude.split(",")))`. -/
def excludedList (args : Args) : List Str :=
  (pySplit [','] args.excludeArg).filter (fun s => s ≠ [])

/-- The mailbox set the per-mailbox loop iterates over (lines 50-62): the
include-list when non-empty and list-only mode is off, otherwise the server
listing; in both cases filtered by the exclude-list on line 62. -/
def workingSet (args : Args) (serverBoxes : List Str) : List Str :=
  let mailboxes :=
    if includedList args ≠ [] ∧ ¬ args.listMailboxes then includedList args
    else serverBoxes
  mailboxes.filter (fun mb => decide (mb ∉ excludedList args))

/-- `f"{args.dir}/{mailbox}"` (line 71; absolutisation is not modelled, the
path stays in this joined form). -/
def mailboxPath (args : Args) (mailbox : Str) : Str :=
  args.dir ++ '/' :: mailbox

/-- `f"{int(msg_id)}_{from_addr}__{subject}.eml"` (lines 105-107). -/
def entryName (i : Nat) (m : Msg) : Str :=
  natRepr i ++ '_' ::
    (fallback (sanitize_string m.fromAddr) ("no_sender".toList) ++ '_' :: '_' ::
      (fallback (sanitize_string m.subject) ("no_subject".toList) ++ ".eml".toList))

/-- The inventory scan (lines 74-85, `if not args.all` body): in zip mode the
archive is opened in append mode (creating it when absent), entries whose
path contains the mailbox name are kept and cut after the last occurrence of
`mailbox + "/"`; in directory mode the mailbox directory is created and
listed.  Names matching `\d+_` contribute their parsed digit prefix. -/
def scanInventory (args : Args) (mailbox : Str) (st : Storage) : Storage × List Nat :=
  if args.zip then
    let st' := { st with archiveExists := true }
    let checkList :=
      (st'.archiveEntries.filter (fun x => containsSub mailbox x)).map
        (fun x => (pySplit (mailbox ++ ['/']) x).getLastD x)
    (st', checkList.filterMap digitPrefixId)
  else
    let st' := mkdirP st (mailboxPath args mailbox)
    (st', (listdir st' (mailboxPath args mailbox)).filterMap digitPrefixId)

/-- The fetch plan (lines 86-88): all of `1..count` under `--all`, otherwise
the sequence numbers of `1..count` not in the inventory, in order. -/
def fetchPlan (all : Bool) (count : Nat) (ids : List Nat) : List Nat :=
  if all then List.range' 1 count
  else (List.range' 1 count).filter (fun i => decide (i ∉ ids))

/-- `(fetch[x:x + args.batch_size] for x in range(0, len(fetch), batch_size))`
(line 91).  Python raises on a zero step; the program forces
`batch_size = 1` when batching is off and the claims assume `B ≥ 1`, so the
`B = 0` case is totalised to `[]`. -/
def chunkGo (B : Nat) : Nat → List Nat → List (List Nat)
  | _, [] => []
  | 0, _ :: _ => []
  | fuel + 1, c :: cs =>
    if B = 0 then []
    else (c :: cs).take B :: chunkGo B fuel ((c :: cs).drop B)

/-- See the doc comment above: chunking proper, started with enough fuel
(the plan's length; fuel only makes the recursion structural and never runs
out for `B ≥ 1`). -/
def chunkList (B : Nat) (l : List Nat) : List (List Nat) :=
  chunkGo B l.length l

/-- The payload stream of a raw response: framing tokens are discarded
(line 100), every other element is handed to the parser (line 101). -/
def payloadsOf (resp : List FetchItem) : List (Option Msg) :=
  resp.filterMap (fun it => match it with
    | FetchItem.frame => none
    | FetchItem.payload p => some p)

/-- The final path a message write touches: `mailbox/<name>` inside the
archive in zip mode, `<dir>/<mailbox>/<name>` in directory mode. -/
def writeTarget (args : Args) (mailbox : Str) (name : Str) : Str :=
  if args.zip then mailbox ++ '/' :: name
  else mailboxPath args mailbox ++ '/' :: name

/-- Persist one message (lines 110-117): append `mailbox/<name>` to the
archive in zip mode, write `<name>` under the mailbox directory otherwise. -/
def writeMsg (args : Args) (mailbox : Str) (st : Storage) (i : Nat) (m : Msg) : Storage :=
  if args.zip then archiveWrite st (mailbox ++ '/' :: entryName i m)
  else writeFile st (mailboxPath args mailbox) (entryName i m)

/-- The per-message loop of one batch (lines 103-119).  The message stream is
lazy: each sequence number forces the next payload, so a missing payload
(`StopIteration`), a parse failure, or a write failure aborts the batch at
that point with all earlier messages of the batch already persisted; surplus
payloads are never forced.  The Bool is `true` when the whole batch
succeeded.  `writeOk` is the environment's verdict on each write target
(missing directory, I/O error, ...). -/
def msgLoop (args : Args) (mailbox : Str) (writeOk : Str → Bool) :
    List Nat → List (Option Msg) → Storage → Storage × Bool
  | [], _, st => (st, true)
  | _ :: _, [], st => (st, false)
  | i :: ids, p :: ps, st =>
    match p with
    | none => (st, false)
    | some m =>
      if args.dryRun then msgLoop args mailbox writeOk ids ps st
      else if writeOk (writeTarget args mailbox (entryName i m)) then
        msgLoop args mailbox writeOk ids ps (writeMsg args mailbox st i m)
      else (st, false)

/-- `",".join(str(item) for item in chunk)` (line 93). -/
def batchStr (chunk : List Nat) : Str :=
  List.intercalate [','] (chunk.map natRepr)

/-- The log line of a failed batch, `f"... failed to do {batch}"` (line 128,
timestamp omitted). -/
def failLog (chunk : List Nat) : Str :=
  "failed to do ".toList ++ batchStr chunk

/-- The batch loop (lines 96-129): a `KeyboardInterrupt` stops everything
(the Bool of the result is `true`), any other failure of the fetch / parse /
write step is caught, logged with the batch's sequence numbers, and the loop
continues with the next batch.  `events k` is what the environment does at
batch index `k`. -/
def batchLoop (args : Args) (mailbox : Str) (writeOk : Str → Bool)
    (events : Nat → BatchEvent) :
    List (List Nat) → Nat → Storage → Storage × Bool × List Str
  | [], _, st => (st, false, [])
  | chunk :: rest, k, st =>
    match events k with
    | BatchEvent.interrupt => (st, true, ["Interrupted.".toList])
    | BatchEvent.fetchFail =>
      let r := batchLoop args mailbox writeOk events rest (k + 1) st
      (r.1, r.2.1, failLog chunk :: r.2.2)
    | BatchEvent.ok resp =>
      let m := msgLoop args mailbox writeOk chunk (payloadsOf resp) st
      let r := batchLoop args mailbox writeOk events rest (k + 1) m.1
      (r.1, r.2.1, (if m.2 then ([] : List Str) else [failLog chunk]) ++ r.2.2)

/-- One mailbox pass (lines 65-132): select gives `count`, the inventory is
scanned unless `--all`, the plan is chunked and the batch loop runs.  The
Bool is `true` when a `KeyboardInterrupt` ended the pass. -/
def mailboxRun (args : Args) (writeOk : Str → Bool) (events : Nat → BatchEvent)
    (mailbox : Str) (count : Nat) (st : Storage) : Storage × Bool × List Str :=
  let s := if args.all then (st, ([] : List Nat)) else scanInventory args mailbox st
  let fetch := fetchPlan args.all count s.2
  batchLoop args mailbox writeOk events (chunkList args.batchSize fetch) 0 s.1

/-- The loop over the working mailbox set (lines 65-132): an interrupt inside
a mailbox exits the whole process with status 130 (line 125), otherwise the
loop continues and the run ends with status 0. -/
def mainLoop (args : Args) (counts : Str → Nat) (events : Str → Nat → BatchEvent)
    (writeOk : Str → Bool) :
    List Str → Storage → Storage × Nat × List Str
  | [], st => (st, 0, [])
  | mb :: rest, st =>
    let r := mailboxRun args writeOk (events mb) mb (counts mb) st
    if r.2.1 then (r.1, 130, r.2.2)
    else
      let r2 := mainLoop args counts events writeOk rest r.1
      (r2.1, r2.2.1, r.2.2 ++ r2.2.2)

/-- `main` (lines 39-135): the `--all --zip` purge of an existing archive
(lines 44-45), the list-only early return (lines 59-60), and the mailbox
loop over the working set.  `serverBoxes` is the decoded server listing,
`counts` the per-mailbox message count from select, `events` the per-mailbox
per-batch environment, `writeOk` the write-failure oracle.  The `Nat` of the
result is the process exit status. -/
def runMain (args : Args) (serverBoxes : List Str) (counts : Str → Nat)
    (events : Str → Nat → BatchEvent) (writeOk : Str → Bool) (st : Storage) :
    Storage × Nat × List Str :=
  let st1 := if st.archiveExists && args.zip && args.all then
    { st with archiveExists := false, archiveEntries := [] } else st
  if args.listMailboxes then (st1, 0, [])
  else mainLoop args counts events writeOk (workingSet args serverBoxes) st1

/-- A well-behaved server for a given chunking: batch `k` answers with
exactly one parseable payload per requested sequence number, in order. -/
def faithfulEventsFor (chunks : List (List Nat)) (msgs : Nat → Msg) :
    Nat → BatchEvent :=
  fun k => BatchEvent.ok ((chunks.getD k []).map
    (fun i => FetchItem.payload (some (msgs i))))

/-- Persist a list of messages in order (the effect of fully successful
batches). -/
def writeList (args : Args) (mailbox : Str) (msgs : Nat → Msg)
    (ids : List Nat) (st : Storage) : Storage :=
  ids.foldl (fun s i => writeMsg args mailbox s i (msgs i)) st

/-! ## Helper lemmas: chunking and the fetch plan -/

theorem chunkList_nil (B : Nat) : chunkList B [] = [] := rfl

theorem chunkGo_fuel (B : Nat) : ∀ fuel (l : List Nat), l.length ≤ fuel →
    chunkGo B fuel l = chunkGo B l.length l := by
  intro fuel
  induction fuel using Nat.strong_induction_on with
  | _ fuel ih =>
    intro l hl
    cases l with
    | nil => cases fuel <;> rfl
    | cons c cs =>
      cases fuel with
      | zero => simp at hl
      | succ f =>
        have hl' : cs.length ≤ f := by
          simpa using hl
        rw [List.length_cons]
        simp only [chunkGo]
        by_cases hB : B = 0
        · simp [hB]
        · simp only [hB, if_false]
          congr 1
          have hd : ((c :: cs).drop B).length ≤ cs.length := by
            simp only [List.length_drop, List.length_cons]
            omega
          rw [ih f (by omega) _ (by omega), ih cs.length (by omega) _ hd]

theorem chunkList_cons (B : Nat) (l : List Nat) (h1 : l ≠ []) (h2 : B ≠ 0) :
    chunkList B l = l.take B :: chunkList B (l.drop B) := by
  cases l with
  | nil => exact absurd rfl h1
  | cons c cs =>
    show chunkGo B (cs.length + 1) (c :: cs) = _
    simp only [chunkGo, h2, if_false]
    congr 1
    exact chunkGo_fuel B cs.length ((c :: cs).drop B)
      (by simp only [List.length_drop, List.length_cons]; omega)

theorem chunkList_flatten (B : Nat) (hB : 1 ≤ B) (l : List Nat) :
    (chunkList B l).flatten = l := by
  generalize hn : l.length = n
  induction n using Nat.strong_induction_on generalizing l with
  | _ n ih =>
    by_cases h : l = []
    · subst h
      simp [chunkList_nil]
    · subst hn
      rw [chunkList_cons B l h (by omega), List.flatten_cons,
        ih (l.drop B).length ?_ (l.drop B) rfl, List.take_append_drop]
      have : l.length ≥ 1 := by
        cases l with
        | nil => exact absurd rfl h
        | cons a as => simp
      simp only [List.length_drop]
      omega

theorem chunkList_length (B : Nat) (hB : 1 ≤ B) (l : List Nat) :
    (chunkList B l).length = (l.length + B - 1) / B := by
  generalize hn : l.length = n
  induction n using Nat.strong_induction_on generalizing l with
  | _ n ih =>
    by_cases h : l = []
    · subst h
      subst hn
      simp [chunkList_nil, Nat.div_eq_of_lt (show B - 1 < B by omega)]
    · have hpos : l.length ≥ 1 := by
        cases l with
        | nil => exact absurd rfl h
        | cons a as => simp
      subst hn
      rw [chunkList_cons B l h (by omega), List.length_cons,
        ih (l.drop B).length (by simp only [List.length_drop]; omega) (l.drop B) rfl]
      simp only [List.length_drop]
      rcases Nat.lt_or_ge l.length (B + 1) with hc | hc
      · have e1 : l.length - B = 0 := by omega
        have e2 : l.length + B - 1 = (l.length - 1) + B := by omega
        rw [e1, e2, Nat.add_div_right _ (show 0 < B by omega),
          Nat.div_eq_of_lt (show 0 + B - 1 < B by omega),
          Nat.div_eq_of_lt (show l.length - 1 < B by omega)]
      · have e3 : l.length - B + B - 1 = l.length - 1 := by omega
        have e4 : l.length + B - 1 = (l.length - 1) + B := by omega
        rw [e3, e4, Nat.add_div_right _ (show 0 < B by omega)]


theorem chunkGo_zero_B : ∀ fuel (l : List Nat), chunkGo 0 fuel l = [] := by
  intro fuel l
  cases fuel <;> cases l <;> simp [chunkGo]

theorem chunkList_size_le (B : Nat) (l : List Nat) :
    ∀ c ∈ chunkList B l, c.length ≤ B := by
  generalize hn : l.length = n
  induction n using Nat.strong_induction_on generalizing l with
  | _ n ih =>
    by_cases h : l = [] ∨ B = 0
    · rcases h with h | h
      · subst h
        rw [chunkList_nil]
        simp
      · subst h
        show ∀ c ∈ chunkGo 0 l.length l, c.length ≤ 0
        rw [chunkGo_zero_B]
        simp
    · rcases not_or.mp h with ⟨h1, h2⟩
      have hpos : l.length ≥ 1 := by
        cases l with
        | nil => exact absurd rfl h1
        | cons a as => simp
      subst hn
      rw [chunkList_cons B l h1 h2]
      intro c hc
      rcases List.mem_cons.mp hc with hc | hc
      · subst hc
        simp [List.length_take]
      · exact ih (l.drop B).length (by simp only [List.length_drop]; omega)
          (l.drop B) rfl c hc

theorem chunkList_size_eq (B : Nat) (hB : 1 ≤ B) (l : List Nat) :
    ∀ j, j + 1 < (chunkList B l).length →
      ((chunkList B l).getD j []).length = B := by
  generalize hn : l.length = n
  induction n using Nat.strong_induction_on generalizing l with
  | _ n ih =>
    intro j hj
    by_cases h : l = []
    · rw [h, chunkList_nil] at hj
      simp at hj
    · have hpos : l.length ≥ 1 := by
        cases l with
        | nil => exact absurd rfl h
        | cons a as => simp
      subst hn
      rw [chunkList_cons B l h (by omega)] at hj ⊢
      cases j with
      | zero =>
        have hrest : chunkList B (l.drop B) ≠ [] := by
          intro he
          rw [List.length_cons, he] at hj
          simp at hj
        have hdrop : l.drop B ≠ [] := by
          intro he
          rw [he, chunkList_nil] at hrest
          exact hrest rfl
        have : B < l.length := by
          rcases Nat.lt_or_ge B l.length with hc | hc
          · exact hc
          · exact absurd (List.drop_eq_nil_of_le hc) hdrop
        simp [List.length_take]
        omega
      | succ j' =>
        rw [List.length_cons] at hj
        exact ih (l.drop B).length (by simp only [List.length_drop]; omega)
          (l.drop B) rfl j' (by omega)

theorem fetchPlan_mem (all : Bool) (N : Nat) (ids : List Nat) (i : Nat) :
    i ∈ fetchPlan all N ids ↔ (1 ≤ i ∧ i ≤ N ∧ (all = true ∨ i ∉ ids)) := by
  cases all with
  | true =>
    simp [fetchPlan, List.mem_range'_1]
    omega
  | false =>
    simp [fetchPlan, List.mem_filter, List.mem_range'_1]
    constructor
    · rintro ⟨⟨h1, h2⟩, h3⟩
      exact ⟨h1, by omega, h3⟩
    · rintro ⟨h1, h2, h3⟩
      exact ⟨⟨h1, by omega⟩, h3⟩

theorem fetchPlan_sorted (all : Bool) (N : Nat) (ids : List Nat) :
    List.Pairwise (fun a b => a < b) (fetchPlan all N ids) := by
  have hr : List.Pairwise (fun a b => a < b) (List.range' 1 N) :=
    List.pairwise_lt_range' 1 N
  cases all with
  | true => simpa [fetchPlan] using hr
  | false => exact List.Pairwise.filter _ hr

/-- C2.  Fetch-planner correctness: the plan is `[1..N]` under refetch-all
and otherwise the ascending `[1..N]` minus the inventory; chunking it with
batch size `B ≥ 1` yields `ceil(P/B)` consecutive batches whose in-order
concatenation is the plan, each of size at most `B`, every batch but the
last of size exactly `B`; an empty plan yields zero batches. -/
theorem C2_fetch_planner (all : Bool) (N : Nat) (ids : List Nat) (B : Nat)
    (hB : 1 ≤ B) :
    (∀ i, i ∈ fetchPlan all N ids ↔ (1 ≤ i ∧ i ≤ N ∧ (all = true ∨ i ∉ ids)))
    ∧ List.Pairwise (fun a b => a < b) (fetchPlan all N ids)
    ∧ (chunkList B (fetchPlan all N ids)).flatten = fetchPlan all N ids
    ∧ (chunkList B (fetchPlan all N ids)).length
        = ((fetchPlan all N ids).length + B - 1) / B
    ∧ (∀ c ∈ chunkList B (fetchPlan all N ids), c.length ≤ B)
    ∧ (∀ j, j + 1 < (chunkList B (fetchPlan all N ids)).length →
        ((chunkList B (fetchPlan all N ids)).getD j []).length = B)
    ∧ (fetchPlan all N ids = [] → chunkList B (fetchPlan all N ids) = []) :=
  ⟨fetchPlan_mem all N ids, fetchPlan_sorted all N ids,
   chunkList_flatten B hB _, chunkList_length B hB _,
   chunkList_size_le B _, chunkList_size_eq B hB _,
   fun he => by rw [he, chunkList_nil]⟩

/-- Witness for C2 at `N = 7`, `I = {2,4,9}`, `B = 3`, no refetch-all. -/
theorem C2_fetch_planner_witness :
    (chunkList 3 (fetchPlan false 7 [2, 4, 9])).flatten = fetchPlan false 7 [2, 4, 9]
    ∧ (chunkList 3 (fetchPlan false 7 [2, 4, 9])).length
        = ((fetchPlan false 7 [2, 4, 9]).length + 3 - 1) / 3 :=
  ⟨(C2_fetch_planner false 7 [2, 4, 9] 3 (by decide)).2.2.1,
   (C2_fetch_planner false 7 [2, 4, 9] 3 (by decide)).2.2.2.1⟩

/-! ## Helper lemmas: the sanitizer -/

theorem reSubGo_no_match : ∀ fuel (s : Str), s.length ≤ fuel →
    (∀ n, reMatchAt (s.drop n) = none) → reSubGo fuel s = s := by
  intro fuel
  induction fuel with
  | zero =>
    intro s hl _
    cases s with
    | nil => rfl
    | cons c cs => simp at hl
  | succ f ih =>
    intro s hl hm
    cases s with
    | nil => rfl
    | cons c cs =>
      have h0 : reMatchAt (c :: cs) = none := by
        have := hm 0
        simpa using this
      simp only [reSubGo, h0]
      congr 1
      refine ih cs (by simpa using hl) (fun n => ?_)
      have := hm (n + 1)
      simpa [List.drop_succ_cons] using this

theorem reSub_no_match (s : Str) (hm : ∀ n, reMatchAt (s.drop n) = none) :
    reSub s = s :=
  reSubGo_no_match s.length s le_rfl hm

theorem dropWhile_id_of_head (p : Char → Bool) (s : Str)
    (h : ∀ c ∈ s.take 1, p c = false) : s.dropWhile p = s := by
  cases s with
  | nil => rfl
  | cons c cs =>
    have hc : p c = false := h c (by simp)
    simp [List.dropWhile_cons, hc]

theorem pyStrip_id (s : Str) (hh : ∀ c ∈ s.take 1, pyIsSpace c = false)
    (hl : ∀ c ∈ s.reverse.take 1, pyIsSpace c = false) : pyStrip s = s := by
  unfold pyStrip
  rw [dropWhile_id_of_head pyIsSpace s hh,
    dropWhile_id_of_head pyIsSpace s.reverse hl, List.reverse_reverse]

/-- C4 counterexample.  The spec's example output `"Hllo"` is wrong: on
`"Iso-8859-1 Héllo!!"` the charset regex does not match (it requires a
letter right after the final digit, but a space follows `"Iso-8859-1"`) and
Python's `isalnum` keeps the accented `é`, so the result is
`"Iso-8859-1 Héllo"`.  The 35-character part is also wrong as stated: the
50-character string of spaces consists only of characters from the safe set,
yet sanitizes to the empty string, not to 35 characters. -/
theorem C4_sanitizer_counterexample :
    sanitize_string (some ("Iso-8859-1 Héllo!!".toList)) ≠ some ("Hllo".toList)
    ∧ (List.replicate 50 ' ').length = 50
    ∧ (List.replicate 50 ' ').all keepChar = true
    ∧ sanitize_string (some (List.replicate 50 ' ')) = some [] := by
  decide

/-- C4 (amended).  `sanitize_string "Iso-8859-1 Héllo!!"` keeps the charset
token and the accented letter, yielding `"Iso-8859-1 Héllo"`; a 50-character
string of safe characters that contains no charset-pattern match and no
leading or trailing whitespace is truncated to exactly 35 characters; a
null/absent input yields the absent result instead of raising. -/
theorem C4_sanitizer_amended (cs : Str)
    (h50 : cs.length = 50)
    (hkeep : ∀ c ∈ cs, keepChar c = true)
    (hnom : ∀ n, n < 50 → reMatchAt (cs.drop n) = none)
    (hh : ∀ c ∈ cs.take 1, pyIsSpace c = false)
    (hl : ∀ c ∈ cs.reverse.take 1, pyIsSpace c = false) :
    sanitize_string (some ("Iso-8859-1 Héllo!!".toList))
        = some ("Iso-8859-1 Héllo".toList)
    ∧ sanitize_string (some cs) = some (cs.take 35)
    ∧ (cs.take 35).length = 35
    ∧ sanitize_string none = none := by
  refine ⟨by decide, ?_, ?_, rfl⟩
  · have hnom' : ∀ n, reMatchAt (cs.drop n) = none := by
      intro n
      by_cases hn : n < 50
      · exact hnom n hn
      · have he : cs.drop n = [] := List.drop_eq_nil_of_le (by omega)
        rw [he]
        rfl
    simp only [sanitize_string]
    rw [reSub_no_match cs hnom', pyStrip_id cs hh hl,
      List.filter_eq_self.mpr hkeep]
  · rw [List.length_take]
    omega

/-- Witness for C4 (amended) at the 50-character string of `'a'`s. -/
theorem C4_sanitizer_amended_witness :
    sanitize_string (some (List.replicate 50 'a'))
        = some ((List.replicate 50 'a').take 35)
    ∧ ((List.replicate 50 'a').take 35).length = 35 :=
  ⟨(C4_sanitizer_amended (List.replicate 50 'a') (by decide) (by decide)
      (by decide) (by decide) (by decide)).2.1,
   (C4_sanitizer_amended (List.replicate 50 'a') (by decide) (by decide)
      (by decide) (by decide) (by decide)).2.2.1⟩

/-! ## C3: archive-backend inventory selection -/

/-- C3 counterexample.  For mailbox `INBOX`, the archive entry
`MyINBOX/5_a__b.eml` does not start with `INBOX/`, yet the scan keeps it and
parses sequence number 5 from it: the code filters with a substring test
(`mailbox in x`) and then cuts after the last occurrence of `mailbox + "/"`,
not with a prefix test as the claim states. -/
theorem C3_archive_scan_counterexample :
    leadsList ("INBOX/".toList) ("MyINBOX/5_a__b.eml".toList) = false
    ∧ (scanInventory ⟨"d".toList, [], [], false, 10, false, false, true⟩
        ("INBOX".toList) ⟨true, ["MyINBOX/5_a__b.eml".toList], [], []⟩).2 = [5] := by
  decide

/-- C3 (amended).  For every mailbox name and archive entry set, the zip-mode
inventory keeps exactly the entries whose path contains the mailbox name as a
substring and whose suffix after the last occurrence of `mailbox + "/"` (the
whole path when `mailbox + "/"` does not occur) starts with digits followed
by `_`; the inventory is the set of integers parsed from those digit
prefixes. -/
theorem C3_archive_scan_amended (args : Args) (mailbox : Str) (st : Storage)
    (n : Nat) (hz : args.zip = true) :
    n ∈ (scanInventory args mailbox st).2 ↔
      ∃ e ∈ st.archiveEntries, containsSub mailbox e = true ∧
        digitPrefixId ((pySplit (mailbox ++ ['/']) e).getLastD e) = some n := by
  simp only [scanInventory, hz, if_true, List.mem_filterMap, List.mem_map,
    List.mem_filter]
  constructor
  · rintro ⟨a, ⟨e, ⟨he, hc⟩, rfl⟩, hid⟩
    exact ⟨e, he, hc, hid⟩
  · rintro ⟨e, he, hc, hid⟩
    exact ⟨_, ⟨e, ⟨he, hc⟩, rfl⟩, hid⟩

/-- Witness for C3 (amended): entry `INBOX/3_a__b.eml` puts 3 in the
inventory of mailbox `INBOX`. -/
theorem C3_archive_scan_amended_witness :
    3 ∈ (scanInventory ⟨"d".toList, [], [], false, 10, false, false, true⟩
        ("INBOX".toList) ⟨true, ["INBOX/3_a__b.eml".toList], [], []⟩).2 :=
  (C3_archive_scan_amended ⟨"d".toList, [], [], false, 10, false, false, true⟩
      ("INBOX".toList) ⟨true, ["INBOX/3_a__b.eml".toList], [], []⟩ 3 rfl).mpr
    ⟨"INBOX/3_a__b.eml".toList, by decide, by decide, by decide⟩

/-! ## C5: batch all-or-nothing failure -/

/-- Writes of a list of (sequence number, message) pairs, in order. -/
def writePairs (args : Args) (mailbox : Str) : List (Nat × Msg) → Storage → Storage
  | [], st => st
  | (i, m) :: rest, st => writePairs args mailbox rest (writeMsg args mailbox st i m)

theorem msgLoop_good_part (args : Args) (mailbox : Str) (writeOk : Str → Bool)
    (hdry : args.dryRun = false) :
    ∀ (ids1 : List Nat) (ms1 : List Msg), ids1.length = ms1.length →
      (∀ p ∈ ids1.zip ms1,
        writeOk (writeTarget args mailbox (entryName p.1 p.2)) = true) →
      ∀ (ids2 : List Nat) (ps2 : List (Option Msg)) (st : Storage),
        msgLoop args mailbox writeOk (ids1 ++ ids2) (ms1.map some ++ ps2) st
          = msgLoop args mailbox writeOk ids2 ps2
              (writePairs args mailbox (ids1.zip ms1) st) := by
  intro ids1
  induction ids1 with
  | nil =>
    intro ms1 hlen _ ids2 ps2 st
    have hms : ms1 = [] := by
      cases ms1 with
      | nil => rfl
      | cons m ms => simp at hlen
    subst hms
    simp [writePairs]
  | cons i ids ih =>
    intro ms1 hlen hok ids2 ps2 st
    cases ms1 with
    | nil => simp at hlen
    | cons m ms =>
      have hoki : writeOk (writeTarget args mailbox (entryName i m)) = true :=
        hok (i, m) (by simp)
      simp only [List.cons_append, List.map_cons, msgLoop, hdry, Bool.false_eq_true,
        if_false, hoki, if_true, List.zip_cons_cons, writePairs]
      exact ih ms (by simpa using hlen) (fun p hp => hok p (by simp [hp]))
        ids2 ps2 (writeMsg args mailbox st i m)

/-- C5 counterexample.  Batch `[1, 2]` whose second payload fails to parse:
the batch fails (`false`), yet the message for sequence number 1 has been
persisted — the loop consumes payloads lazily and writes each message before
looking at the next one, so a failed batch is not all-or-nothing. -/
theorem C5_batch_counterexample :
    (msgLoop ⟨"d".toList, [], [], true, 2, false, false, false⟩ ("M".toList)
        (fun _ => true) [1, 2] [some ⟨none, none⟩, none] ⟨false, [], [], []⟩).2
      = false
    ∧ (msgLoop ⟨"d".toList, [], [], true, 2, false, false, false⟩ ("M".toList)
        (fun _ => true) [1, 2] [some ⟨none, none⟩, none] ⟨false, [], [], []⟩).1.files
      = [("d/M".toList, "1_no_sender__no_subject.eml".toList)] := by
  decide

/-- C5 (amended).  The batch loop pairs payloads with sequence numbers
lazily, in order: with a good prefix (`ids1`/`ms1` all parsed, all writes
succeeding) and then a failure — payloads exhausted, an unparseable payload,
or a failing write — the batch fails at that point with exactly the good
prefix persisted and nothing after it; with a good prefix covering the whole
batch, surplus payloads are ignored and the batch succeeds. -/
theorem C5_batch_partial_amended (args : Args) (mailbox : Str)
    (writeOk : Str → Bool) (ids1 : List Nat) (ms1 : List Msg) (i : Nat)
    (ids2 : List Nat) (rest : List (Option Msg)) (st : Storage)
    (hdry : args.dryRun = false)
    (hlen : ids1.length = ms1.length)
    (hok : ∀ p ∈ ids1.zip ms1,
      writeOk (writeTarget args mailbox (entryName p.1 p.2)) = true)
    (hbad : rest = [] ∨ (∃ ps, rest = none :: ps) ∨
      (∃ m ps, rest = some m :: ps ∧
        writeOk (writeTarget args mailbox (entryName i m)) = false)) :
    msgLoop args mailbox writeOk (ids1 ++ i :: ids2) (ms1.map some ++ rest) st
      = (writePairs args mailbox (ids1.zip ms1) st, false)
    ∧ (∀ extra : List (Option Msg),
        msgLoop args mailbox writeOk ids1 (ms1.map some ++ extra) st
          = (writePairs args mailbox (ids1.zip ms1) st, true)) := by
  constructor
  · rw [msgLoop_good_part args mailbox writeOk hdry ids1 ms1 hlen hok
      (i :: ids2) rest st]
    rcases hbad with hbad | ⟨ps, hbad⟩ | ⟨m, ps, hbad, hw⟩
    · rw [hbad]
      rfl
    · rw [hbad]
      rfl
    · rw [hbad]
      simp only [msgLoop, hdry, Bool.false_eq_true, if_false, hw]
  · intro extra
    have := msgLoop_good_part args mailbox writeOk hdry ids1 ms1 hlen hok
      [] extra st
    simpa using this

/-- Witness for C5 (amended): good prefix `[1]`, then an unparseable second
payload — message 1 persisted, batch failed. -/
theorem C5_batch_partial_amended_witness :
    msgLoop ⟨"d".toList, [], [], true, 2, false, false, false⟩ ("M".toList)
        (fun _ => true) ([1] ++ 2 :: []) ([Msg.mk none none].map some ++ [none])
        ⟨false, [], [], []⟩
      = (writePairs ⟨"d".toList, [], [], true, 2, false, false, false⟩ ("M".toList)
          ([1].zip [Msg.mk none none]) ⟨false, [], [], []⟩, false) :=
  (C5_batch_partial_amended ⟨"d".toList, [], [], true, 2, false, false, false⟩
      ("M".toList) (fun _ => true) [1] [Msg.mk none none] 2 [] [none]
      ⟨false, [], [], []⟩ rfl (by decide) (by decide)
      (Or.inr (Or.inl ⟨[], rfl⟩))).1

/-! ## C10: include-list handling -/

/-- C10 counterexample.  Include-list `INBOX,Trash` with exclude-list `Trash`
(reachable because argparse mutual exclusion only covers the command line;
config-file defaults can populate the other one): line 62 filters the
include-list by the exclude-list, so the working set is `[INBOX]`, not the
include-list used verbatim. -/
theorem C10_include_counterexample :
    includedList ⟨"d".toList, "INBOX,Trash".toList, "Trash".toList, false, 10,
        false, false, false⟩
      = ["INBOX".toList, "Trash".toList]
    ∧ workingSet ⟨"d".toList, "INBOX,Trash".toList, "Trash".toList, false, 10,
        false, false, false⟩ ["X".toList]
      = ["INBOX".toList] := by
  decide

/-- C10 (amended).  With a non-empty include-list and list-only mode off, the
working set is the include-list filtered by the exclude-list — verbatim
exactly when the exclude-list is empty; with an empty include-list it is the
server listing filtered by the exclude-list. -/
theorem C10_include_amended (args : Args) (serverBoxes : List Str) :
    (includedList args ≠ [] → args.listMailboxes = false →
      workingSet args serverBoxes
          = (includedList args).filter (fun mb => decide (mb ∉ excludedList args))
      ∧ (excludedList args = [] → workingSet args serverBoxes = includedList args))
    ∧ (includedList args = [] →
      workingSet args serverBoxes
        = serverBoxes.filter (fun mb => decide (mb ∉ excludedList args))) := by
  constructor
  · intro hne hlo
    have hc : includedList args ≠ [] ∧ ¬ args.listMailboxes := ⟨hne, by simp [hlo]⟩
    constructor
    · simp only [workingSet, if_pos hc]
    · intro hex
      simp only [workingSet, if_pos hc, hex]
      exact List.filter_eq_self.mpr (by simp)
  · intro he
    have hc : ¬ (includedList args ≠ [] ∧ ¬ args.listMailboxes) := by
      simp [he]
    simp only [workingSet, if_neg hc]

/-- Witness for C10 (amended): include-list `INBOX`, empty exclude-list. -/
theorem C10_include_amended_witness :
    workingSet ⟨"d".toList, "INBOX".toList, [], false, 10, false, false, false⟩
        ["X".toList]
      = includedList ⟨"d".toList, "INBOX".toList, [], false, 10, false, false, false⟩ :=
  ((C10_include_amended ⟨"d".toList, "INBOX".toList, [], false, 10, false, false,
      false⟩ ["X".toList]).1 (by decide) rfl).2 (by decide)

/-! ## C9: dry-run frame -/

theorem msgLoop_dry (args : Args) (mailbox : Str) (writeOk : Str → Bool)
    (hdry : args.dryRun = true) :
    ∀ (ids : List Nat) (ps : List (Option Msg)) (st : Storage),
      (msgLoop args mailbox writeOk ids ps st).1 = st := by
  intro ids
  induction ids with
  | nil => intro ps st; rfl
  | cons i ids ih =>
    intro ps st
    cases ps with
    | nil => rfl
    | cons p ps' =>
      cases p with
      | none => rfl
      | some m =>
        simp only [msgLoop, hdry, if_true]
        exact ih ps' st

theorem batchLoop_dry (args : Args) (mailbox : Str) (writeOk : Str → Bool)
    (events : Nat → BatchEvent) (hdry : args.dryRun = true) :
    ∀ (chunks : List (List Nat)) (k : Nat) (st : Storage),
      (batchLoop args mailbox writeOk events chunks k st).1 = st := by
  intro chunks
  induction chunks with
  | nil => intro k st; rfl
  | cons chunk rest ih =>
    intro k st
    simp only [batchLoop]
    cases hk : events k with
    | interrupt => rfl
    | fetchFail =>
      dsimp only
      exact ih (k + 1) st
    | ok resp =>
      dsimp only
      rw [msgLoop_dry args mailbox writeOk hdry chunk (payloadsOf resp) st]
      exact ih (k + 1) st

theorem scanInventory_frame (args : Args) (mailbox : Str) (st : Storage) :
    (scanInventory args mailbox st).1.files = st.files
    ∧ (scanInventory args mailbox st).1.archiveEntries = st.archiveEntries := by
  unfold scanInventory mkdirP
  by_cases hz : args.zip <;> simp [hz]

theorem mailboxRun_dry (args : Args) (writeOk : Str → Bool)
    (events : Nat → BatchEvent) (mailbox : Str) (count : Nat) (st : Storage)
    (hdry : args.dryRun = true) :
    (mailboxRun args writeOk events mailbox count st).1.files = st.files
    ∧ (mailboxRun args writeOk events mailbox count st).1.archiveEntries
      = st.archiveEntries := by
  unfold mailboxRun
  rw [batchLoop_dry args mailbox writeOk events hdry]
  by_cases ha : args.all
  · simp [ha]
  · simp only [ha, if_false]
    exact scanInventory_frame args mailbox st

theorem mainLoop_dry (args : Args) (counts : Str → Nat)
    (events : Str → Nat → BatchEvent) (writeOk : Str → Bool)
    (hdry : args.dryRun = true) :
    ∀ (boxes : List Str) (st : Storage),
      (mainLoop args counts events writeOk boxes st).1.files = st.files
      ∧ (mainLoop args counts events writeOk boxes st).1.archiveEntries
        = st.archiveEntries := by
  intro boxes
  induction boxes with
  | nil => intro st; exact ⟨rfl, rfl⟩
  | cons mb rest ih =>
    intro st
    simp only [mainLoop]
    have hmb := mailboxRun_dry args writeOk (events mb) mb (counts mb) st hdry
    by_cases hi : (mailboxRun args writeOk (events mb) mb (counts mb) st).2.1
    · simp only [hi, if_true]
      exact hmb
    · simp only [hi, if_false]
      have hrest := ih (mailboxRun args writeOk (events mb) mb (counts mb) st).1
      refine ⟨?_, ?_⟩
      · show (mainLoop args counts events writeOk rest
            (mailboxRun args writeOk (events mb) mb (counts mb) st).1).1.files
          = st.files
        rw [hrest.1, hmb.1]
      · show (mainLoop args counts events writeOk rest
            (mailboxRun args writeOk (events mb) mb (counts mb) st).1).1.archiveEntries
          = st.archiveEntries
        rw [hrest.2, hmb.2]

/-- C9 counterexample.  A dry run in directory mode with one mailbox still
creates the mailbox directory `d/M` during the inventory scan (line 81 runs
regardless of `--dry-run`), so the storage backend is not left unchanged. -/
theorem C9_dry_run_counterexample :
    (runMain ⟨"d".toList, [], [], false, 10, true, false, false⟩ ["M".toList]
        (fun _ => 0) (fun _ _ => BatchEvent.fetchFail) (fun _ => true)
        ⟨false, [], [], []⟩).1
      ≠ (⟨false, [], [], []⟩ : Storage)
    ∧ (runMain ⟨"d".toList, [], [], false, 10, true, false, false⟩ ["M".toList]
        (fun _ => 0) (fun _ _ => BatchEvent.fetchFail) (fun _ => true)
        ⟨false, [], [], []⟩).1.dirs
      = ["d/M".toList] := by
  decide

/-- C9 (amended).  Under `--dry-run` no message entry is written: the file
set and — except for the `--all --zip` purge of line 44-45, which still runs —
the archive entry list are unchanged.  (Directories are still created and the
empty archive may still be created by the inventory scan, as the
counterexample shows.) -/
theorem C9_dry_run_amended (args : Args) (serverBoxes : List Str)
    (counts : Str → Nat) (events : Str → Nat → BatchEvent)
    (writeOk : Str → Bool) (st : Storage) (hdry : args.dryRun = true) :
    (runMain args serverBoxes counts events writeOk st).1.files = st.files
    ∧ (runMain args serverBoxes counts events writeOk st).1.archiveEntries
      = (if st.archiveExists && args.zip && args.all then [] else st.archiveEntries) := by
  unfold runMain
  by_cases hp : (st.archiveExists && args.zip && args.all) = true
  · simp only [hp, if_true]
    by_cases hl : args.listMailboxes
    · simp [hl]
    · simp only [hl, if_false]
      have := mainLoop_dry args counts events writeOk hdry
        (workingSet args serverBoxes)
        { st with archiveExists := false, archiveEntries := [] }
      exact ⟨this.1, this.2⟩
  · simp only [Bool.not_eq_true] at hp
    simp only [hp, Bool.false_eq_true, if_false]
    by_cases hl : args.listMailboxes
    · simp [hl]
    · simp only [hl, if_false]
      exact mainLoop_dry args counts events writeOk hdry
        (workingSet args serverBoxes) st

/-- Witness for C9 (amended) on a concrete dry run. -/
theorem C9_dry_run_amended_witness :
    (runMain ⟨"d".toList, [], [], false, 10, true, false, false⟩ ["M".toList]
        (fun _ => 0) (fun _ _ => BatchEvent.fetchFail) (fun _ => true)
        ⟨false, [], [], []⟩).1.files = ([] : List (Str × Str)) :=
  (C9_dry_run_amended ⟨"d".toList, [], [], false, 10, true, false, false⟩
      ["M".toList] (fun _ => 0) (fun _ _ => BatchEvent.fetchFail) (fun _ => true)
      ⟨false, [], [], []⟩ rfl).1

/-! ## Helper lemmas: interrupts and loop composition -/

theorem batchLoop_no_interrupt (args : Args) (mailbox : Str) (writeOk : Str → Bool)
    (events : Nat → BatchEvent) (h : ∀ k, events k ≠ BatchEvent.interrupt) :
    ∀ (chunks : List (List Nat)) (k : Nat) (st : Storage),
      (batchLoop args mailbox writeOk events chunks k st).2.1 = false := by
  intro chunks
  induction chunks with
  | nil => intro k st; rfl
  | cons chunk rest ih =>
    intro k st
    simp only [batchLoop]
    cases hk : events k with
    | interrupt => exact absurd hk (h k)
    | fetchFail =>
      dsimp only
      exact ih (k + 1) st
    | ok resp =>
      dsimp only
      exact ih (k + 1) _

theorem mailboxRun_no_interrupt (args : Args) (writeOk : Str → Bool)
    (events : Nat → BatchEvent) (mailbox : Str) (count : Nat) (st : Storage)
    (h : ∀ k, events k ≠ BatchEvent.interrupt) :
    (mailboxRun args writeOk events mailbox count st).2.1 = false := by
  unfold mailboxRun
  exact batchLoop_no_interrupt args mailbox writeOk events h _ 0 _

theorem mainLoop_no_interrupt (args : Args) (counts : Str → Nat)
    (events : Str → Nat → BatchEvent) (writeOk : Str → Bool)
    (h : ∀ mb k, events mb k ≠ BatchEvent.interrupt) :
    ∀ (boxes : List Str) (st : Storage),
      (mainLoop args counts events writeOk boxes st).2.1 = 0 := by
  intro boxes
  induction boxes with
  | nil => intro st; rfl
  | cons mb rest ih =>
    intro st
    simp only [mainLoop]
    have hr := mailboxRun_no_interrupt args writeOk (events mb) mb (counts mb) st
      (h mb)
    simp only [hr, Bool.false_eq_true, if_false]
    exact ih _

theorem mainLoop_append (args : Args) (counts : Str → Nat)
    (events : Str → Nat → BatchEvent) (writeOk : Str → Bool) :
    ∀ (boxes1 boxes2 : List Str) (st : Storage),
      (mainLoop args counts events writeOk boxes1 st).2.1 = 0 →
      mainLoop args counts events writeOk (boxes1 ++ boxes2) st
        = ((mainLoop args counts events writeOk boxes2
              (mainLoop args counts events writeOk boxes1 st).1).1,
           (mainLoop args counts events writeOk boxes2
              (mainLoop args counts events writeOk boxes1 st).1).2.1,
           (mainLoop args counts events writeOk boxes1 st).2.2
             ++ (mainLoop args counts events writeOk boxes2
                  (mainLoop args counts events writeOk boxes1 st).1).2.2) := by
  intro boxes1
  induction boxes1 with
  | nil =>
    intro boxes2 st _
    simp only [List.nil_append]
    rfl
  | cons mb rest ih =>
    intro boxes2 st h0
    simp only [List.cons_append, mainLoop] at h0 ⊢
    by_cases hi : (mailboxRun args writeOk (events mb) mb (counts mb) st).2.1 = true
    · rw [if_pos hi] at h0
      dsimp only at h0
      exact absurd h0 (by decide)
    · have hb : (mailboxRun args writeOk (events mb) mb (counts mb) st).2.1 = false :=
        Bool.not_eq_true _ ▸ eq_false_of_ne_true hi
      simp only [hb, Bool.false_eq_true, if_false] at h0 ⊢
      simp only [List.append_eq] at h0 ⊢
      rw [ih boxes2 _ h0]
      simp [List.append_assoc]

/-! ## C6: storage-error handling -/

/-- C6 counterexample.  Mailboxes `A` then `B`, one message each; the write
of `A`'s message fails (the oracle rejects its target path).  The run does
not abort: the failed batch is logged, `B` is still processed and its
message written, and the exit status is 0 — so a storage write failure is
caught at batch scope, not propagated. -/
theorem C6_storage_error_counterexample :
    mainLoop ⟨"d".toList, [], [], true, 1, false, false, false⟩ (fun _ => 1)
        (fun _ _ => BatchEvent.ok [FetchItem.payload (some ⟨none, none⟩)])
        (fun t => decide (t ≠ "d/A/1_no_sender__no_subject.eml".toList))
        ["A".toList, "B".toList] ⟨false, [], [], []⟩
      = (⟨false, [], [], [("d/B".toList, "1_no_sender__no_subject.eml".toList)]⟩,
         0, ["failed to do 1".toList]) := by
  decide

/-- C6 (amended).  A storage write failure is caught and suppressed at batch
scope exactly like fetch/decode failures: the failing write leaves storage
unchanged and marks the batch failed (first conjunct), and for an arbitrary
write-failure oracle the run still continues through all remaining batches
and mailboxes and exits with status 0, provided no interrupt occurs (second
and third conjuncts). -/
theorem C6_storage_error_amended (args : Args) (counts : Str → Nat)
    (events : Str → Nat → BatchEvent) (writeOk : Str → Bool)
    (boxes1 boxes2 : List Str) (st : Storage)
    (hni : ∀ mb k, events mb k ≠ BatchEvent.interrupt) :
    (∀ (mailbox : Str) (i : Nat) (m : Msg) (ids : List Nat)
        (ps : List (Option Msg)) (st' : Storage),
      args.dryRun = false →
      writeOk (writeTarget args mailbox (entryName i m)) = false →
      msgLoop args mailbox writeOk (i :: ids) (some m :: ps) st' = (st', false))
    ∧ mainLoop args counts events writeOk (boxes1 ++ boxes2) st
        = ((mainLoop args counts events writeOk boxes2
              (mainLoop args counts events writeOk boxes1 st).1).1,
           (mainLoop args counts events writeOk boxes2
              (mainLoop args counts events writeOk boxes1 st).1).2.1,
           (mainLoop args counts events writeOk boxes1 st).2.2
             ++ (mainLoop args counts events writeOk boxes2
                  (mainLoop args counts events writeOk boxes1 st).1).2.2)
    ∧ (mainLoop args counts events writeOk (boxes1 ++ boxes2) st).2.1 = 0 := by
  refine ⟨?_, ?_, ?_⟩
  · intro mailbox i m ids ps st' hdry hw
    simp only [msgLoop, hdry, Bool.false_eq_true, if_false, hw]
  · exact mainLoop_append args counts events writeOk boxes1 boxes2 st
      (mainLoop_no_interrupt args counts events writeOk hni boxes1 st)
  · exact mainLoop_no_interrupt args counts events writeOk hni _ st

/-- Witness for C6 (amended): the concrete failing-write run of the
counterexample, through the composition form of the theorem. -/
theorem C6_storage_error_amended_witness :
    (mainLoop ⟨"d".toList, [], [], true, 1, false, false, false⟩ (fun _ => 1)
        (fun _ _ => BatchEvent.ok [FetchItem.payload (some ⟨none, none⟩)])
        (fun t => decide (t ≠ "d/A/1_no_sender__no_subject.eml".toList))
        (["A".toList] ++ ["B".toList]) ⟨false, [], [], []⟩).2.1 = 0 :=
  (C6_storage_error_amended ⟨"d".toList, [], [], true, 1, false, false, false⟩
      (fun _ => 1) (fun _ _ => BatchEvent.ok [FetchItem.payload (some ⟨none, none⟩)])
      (fun t => decide (t ≠ "d/A/1_no_sender__no_subject.eml".toList))
      ["A".toList] ["B".toList] ⟨false, [], [], []⟩
      (fun _ _ h => nomatch h)).2.2

/-! ## C7: batch failure isolation -/

/-- C7 counterexample.  One mailbox, one batch `[1, 2]` whose second payload
is unparseable: the batch is caught and logged and the run completes with
status 0, but the message for sequence number 1 of the failed batch HAS been
persisted — "messages of the failed batch remain absent" is false. -/
theorem C7_batch_isolation_counterexample :
    mainLoop ⟨"d".toList, [], [], true, 2, false, false, false⟩ (fun _ => 2)
        (fun _ _ => BatchEvent.ok
          [FetchItem.payload (some ⟨none, none⟩), FetchItem.payload none])
        (fun _ => true) ["M".toList] ⟨false, [], [], []⟩
      = (⟨false, [], [], [("d/M".toList, "1_no_sender__no_subject.eml".toList)]⟩,
         0, ["failed to do 1,2".toList]) := by
  decide

/-- C7 (amended).  Any batch failure other than a user interrupt is caught:
with no interrupt in the environment the whole run completes with status 0
whatever the batch failures (first conjunct); the spec's own example — plan
`[1..6]`, batches `[1,2,3]`, `[4,5,6]`, second fetch failing — persists
exactly messages 1-3, logs the failed batch with its sequence numbers, and
still processes the following mailbox `B` (second conjunct).  Messages of a
failed batch written before the failure point do persist; only those from
the failure point on stay absent for the next run. -/
theorem C7_batch_isolation_amended (args : Args) (counts : Str → Nat)
    (events : Str → Nat → BatchEvent) (writeOk : Str → Bool) (boxes : List Str)
    (st : Storage) (hni : ∀ mb k, events mb k ≠ BatchEvent.interrupt) :
    (mainLoop args counts events writeOk boxes st).2.1 = 0
    ∧ mainLoop ⟨"d".toList, [], [], true, 3, false, false, false⟩
        (fun mb => if mb = "A".toList then 6 else 1)
        (fun mb k =>
          if mb = "A".toList then
            (if k = 0 then
              BatchEvent.ok ([1, 2, 3].map (fun _ => FetchItem.payload (some ⟨none, none⟩)))
            else BatchEvent.fetchFail)
          else BatchEvent.ok [FetchItem.frame, FetchItem.payload (some ⟨none, none⟩),
            FetchItem.frame])
        (fun _ => true) ["A".toList, "B".toList] ⟨false, [], [], []⟩
      = (⟨false, [], [],
          [("d/A".toList, "1_no_sender__no_subject.eml".toList),
           ("d/A".toList, "2_no_sender__no_subject.eml".toList),
           ("d/A".toList, "3_no_sender__no_subject.eml".toList),
           ("d/B".toList, "1_no_sender__no_subject.eml".toList)]⟩,
         0, ["failed to do 4,5,6".toList]) :=
  ⟨mainLoop_no_interrupt args counts events writeOk hni boxes st, by decide⟩

/-- Witness for C7 (amended): a run whose every fetch fails still exits 0. -/
theorem C7_batch_isolation_amended_witness :
    (mainLoop ⟨"d".toList, [], [], true, 1, false, false, false⟩ (fun _ => 3)
        (fun _ _ => BatchEvent.fetchFail) (fun _ => true)
        ["A".toList, "B".toList] ⟨false, [], [], []⟩).2.1 = 0 :=
  (C7_batch_isolation_amended ⟨"d".toList, [], [], true, 1, false, false, false⟩
      (fun _ => 3) (fun _ _ => BatchEvent.fetchFail) (fun _ => true)
      ["A".toList, "B".toList] ⟨false, [], [], []⟩ (fun _ _ h => nomatch h)).1

/-! ## C8: interrupt exit status -/

theorem mailboxRun_interrupt_first (args : Args) (writeOk : Str → Bool)
    (events : Nat → BatchEvent) (mailbox : Str) (count : Nat) (st : Storage)
    (hall : args.all = true) (hB : 1 ≤ args.batchSize) (hcount : 1 ≤ count)
    (hint : events 0 = BatchEvent.interrupt) :
    mailboxRun args writeOk events mailbox count st
      = (st, true, ["Interrupted.".toList]) := by
  unfold mailboxRun
  simp only [hall, if_true]
  have hplan : fetchPlan true count [] ≠ [] := by
    simp only [fetchPlan, if_true]
    simp
    omega
  rw [chunkList_cons args.batchSize _ hplan (by omega)]
  simp only [batchLoop, hint]

/-- C8.  A `KeyboardInterrupt` arriving during a batch terminates the whole
process with exit status 130 and no further batches or mailboxes are
processed: with the already-processed prefix `boxes1` ending normally and an
interrupt at the first batch of the next mailbox `mb`, the run's exit status
is 130 and the final storage is exactly the storage after `boxes1` —
nothing of `mb`'s remaining batches or of `boxes2` ever runs.  (Stated for a
refetch-all run in directory mode so the interrupted mailbox performs no
scan of its own.) -/
theorem C8_interrupt_exit (args : Args) (serverBoxes : List Str)
    (counts : Str → Nat) (events : Str → Nat → BatchEvent) (writeOk : Str → Bool)
    (st : Storage) (boxes1 boxes2 : List Str) (mb : Str)
    (hsplit : workingSet args serverBoxes = boxes1 ++ mb :: boxes2)
    (hlist : args.listMailboxes = false)
    (hzip : args.zip = false)
    (hall : args.all = true)
    (hB : 1 ≤ args.batchSize)
    (hcount : 1 ≤ counts mb)
    (hpre : (mainLoop args counts events writeOk boxes1 st).2.1 = 0)
    (hint : events mb 0 = BatchEvent.interrupt) :
    (runMain args serverBoxes counts events writeOk st).2.1 = 130
    ∧ (runMain args serverBoxes counts events writeOk st).1
      = (mainLoop args counts events writeOk boxes1 st).1 := by
  unfold runMain
  simp only [hzip, Bool.and_false, Bool.false_and, Bool.false_eq_true, if_false,
    hlist]
  rw [hsplit, mainLoop_append args counts events writeOk boxes1 (mb :: boxes2) st
    hpre]
  simp only [mainLoop]
  rw [mailboxRun_interrupt_first args writeOk (events mb) mb (counts mb)
    (mainLoop args counts events writeOk boxes1 st).1 hall hB hcount hint]
  exact ⟨rfl, rfl⟩

/-- Witness for C8: a one-mailbox run interrupted at its first batch exits
with status 130. -/
theorem C8_interrupt_exit_witness :
    (runMain ⟨"d".toList, [], [], true, 1, false, false, false⟩ ["A".toList]
        (fun _ => 1) (fun _ _ => BatchEvent.interrupt) (fun _ => true)
        ⟨false, [], [], []⟩).2.1 = 130 :=
  (C8_interrupt_exit ⟨"d".toList, [], [], true, 1, false, false, false⟩
      ["A".toList] (fun _ => 1) (fun _ _ => BatchEvent.interrupt) (fun _ => true)
      ⟨false, [], [], []⟩ [] [] ("A".toList) (by decide) rfl rfl rfl
      (by decide) (by decide) rfl rfl).1

/-! ## Helper lemmas for C1: names round-trip through the inventory scan -/

theorem leadsList_append_self : ∀ (a b : Str), leadsList a (a ++ b) = true := by
  intro a
  induction a with
  | nil => intro b; rfl
  | cons c cs ih =>
    intro b
    simp only [List.cons_append, leadsList, List.append_eq]
    rw [ih b]
    simp

theorem containsSub_of_leads (a b : Str) (h : leadsList a b = true) :
    containsSub a b = true := by
  cases b with
  | nil => simpa [containsSub] using h
  | cons c rest => simp [containsSub, h]

theorem mem_of_containsSub : ∀ (b a : Str), containsSub a b = true →
    ∀ x ∈ a, x ∈ b := by
  have hlead : ∀ (a b : Str), leadsList a b = true → ∀ x ∈ a, x ∈ b := by
    intro a
    induction a with
    | nil => intro b _ x hx; simp at hx
    | cons c cs ih =>
      intro b h x hx
      cases b with
      | nil => simp [leadsList] at h
      | cons d ds =>
        simp only [leadsList, Bool.and_eq_true, decide_eq_true_eq] at h
        rcases List.mem_cons.mp hx with hx | hx
        · simp [hx, h.1]
        · exact List.mem_cons_of_mem d (ih ds h.2 x hx)
  intro b
  induction b with
  | nil =>
    intro a h x hx
    exact hlead a [] h x hx
  | cons c rest ih =>
    intro a h x hx
    simp only [containsSub, Bool.or_eq_true] at h
    rcases h with h | h
    · exact hlead a (c :: rest) h x hx
    · exact List.mem_cons_of_mem c (ih a h x hx)

theorem containsSub_eq_false (a b : Str) (x : Char) (hxa : x ∈ a) (hxb : x ∉ b) :
    containsSub a b = false := by
  by_contra h
  have := mem_of_containsSub b a (by
    cases hc : containsSub a b with
    | true => rfl
    | false => exact absurd hc h) x hxa
  exact hxb this

theorem pySplitGo_no_sub (sep : Str) (hsep : sep ≠ []) :
    ∀ (fuel : Nat) (s acc : Str), s.length ≤ fuel →
      containsSub sep s = false →
      pySplitGo sep fuel s acc = [acc.reverse ++ s] := by
  intro fuel
  induction fuel with
  | zero =>
    intro s acc hl _
    cases s with
    | nil => simp [pySplitGo]
    | cons c cs => simp at hl
  | succ f ih =>
    intro s acc hl hc
    cases s with
    | nil => simp [pySplitGo]
    | cons c cs =>
      simp only [containsSub, Bool.or_eq_false_iff] at hc
      have hcond : ¬ (sep ≠ [] ∧ leadsList sep (c :: cs) = true) := by
        intro hand
        rw [hc.1] at hand
        exact absurd hand.2 (by simp)
      simp only [pySplitGo, if_neg hcond]
      rw [ih cs (c :: acc) (by simpa using hl) hc.2]
      simp

theorem pySplit_sep_self_append (sep name : Str) (hsep : sep ≠ [])
    (hns : containsSub sep name = false) :
    pySplit sep (sep ++ name) = [[], name] := by
  unfold pySplit
  rw [if_neg hsep]
  cases sep with
  | nil => exact absurd rfl hsep
  | cons d ds =>
    have hlen : ((d :: ds) ++ name).length = (ds ++ name).length + 1 := by simp
    show pySplitGo (d :: ds) ((d :: ds) ++ name).length ((d :: ds) ++ name) [] = _
    rw [hlen]
    have hcond : (d :: ds) ≠ [] ∧ leadsList (d :: ds) (d :: (ds ++ name)) = true := by
      refine ⟨by simp, ?_⟩
      have := leadsList_append_self (d :: ds) name
      simpa using this
    show pySplitGo (d :: ds) ((ds ++ name).length + 1) (d :: (ds ++ name)) [] = _
    simp only [pySplitGo, if_pos hcond]
    have hdrop : (d :: (ds ++ name)).drop (d :: ds).length = name := by
      have : (d :: (ds ++ name)) = (d :: ds) ++ name := by simp
      rw [this]
      exact List.drop_left (d :: ds) name
    rw [hdrop]
    rw [pySplitGo_no_sub (d :: ds) hsep (ds ++ name).length name []
      (by simp only [List.length_append]; omega) hns]
    simp

theorem digitChar_val (d : Nat) (hd : d < 10) :
    isAsciiDigit (digitChar d) = true ∧ (digitChar d).toNat - 48 = d := by
  interval_cases d <;> exact ⟨by decide, by decide⟩

theorem natReprAux_digits : ∀ (fuel n : Nat), ∀ c ∈ natReprAux fuel n,
    isAsciiDigit c = true := by
  intro fuel
  induction fuel with
  | zero =>
    intro n c hc
    cases n with
    | zero => simp [natReprAux] at hc
    | succ m => simp [natReprAux] at hc
  | succ f ih =>
    intro n c hc
    cases n with
    | zero => simp [natReprAux] at hc
    | succ m =>
      simp only [natReprAux, List.mem_append, List.mem_singleton] at hc
      rcases hc with hc | hc
      · exact ih ((m + 1) / 10) c hc
      · subst hc
        exact (digitChar_val ((m + 1) % 10) (Nat.mod_lt _ (by omega))).1

theorem natRepr_digits (n : Nat) : ∀ c ∈ natRepr n, isAsciiDigit c = true := by
  unfold natRepr
  by_cases h : n = 0
  · simp only [h, if_true]
    intro c hc
    simp only [List.mem_singleton] at hc
    subst hc
    decide
  · simp only [h, if_false]
    exact natReprAux_digits n n

theorem natRepr_ne_nil (n : Nat) : natRepr n ≠ [] := by
  unfold natRepr
  by_cases h : n = 0
  · simp [h]
  · simp only [h, if_false]
    cases n with
    | zero => exact absurd rfl h
    | succ m => simp [natReprAux]

theorem natOfDigits_append_digit (xs : Str) (c : Char) :
    natOfDigits (xs ++ [c]) = 10 * natOfDigits xs + (c.toNat - 48) := by
  unfold natOfDigits
  rw [List.foldl_append]
  rfl

theorem natReprAux_val : ∀ (fuel n : Nat), 1 ≤ n → n ≤ fuel →
    natOfDigits (natReprAux fuel n) = n := by
  intro fuel
  induction fuel with
  | zero => intro n h1 h2; omega
  | succ f ih =>
    intro n h1 h2
    cases n with
    | zero => omega
    | succ m =>
      show natOfDigits (natReprAux f ((m + 1) / 10) ++ [digitChar ((m + 1) % 10)])
        = m + 1
      rw [natOfDigits_append_digit,
        (digitChar_val ((m + 1) % 10) (Nat.mod_lt _ (by omega))).2]
      by_cases hc : m + 1 < 10
      · have hq : (m + 1) / 10 = 0 := Nat.div_eq_of_lt hc
        have hz : ∀ f', natReprAux f' 0 = [] := by
          intro f'
          cases f' <;> rfl
        rw [hq, hz f]
        simp [natOfDigits, Nat.mod_eq_of_lt hc]
      · have hq1 : 1 ≤ (m + 1) / 10 := by
          rw [Nat.le_div_iff_mul_le (by omega)]
          omega
        have hq2 : (m + 1) / 10 ≤ f := by
          have := Nat.div_lt_self (show 0 < m + 1 by omega) (show 1 < 10 by omega)
          omega
        rw [ih ((m + 1) / 10) hq1 hq2]
        omega

theorem natOfDigits_natRepr (n : Nat) : natOfDigits (natRepr n) = n := by
  unfold natRepr
  by_cases h : n = 0
  · subst h
    decide
  · simp only [h, if_false]
    exact natReprAux_val n n (by omega) le_rfl

theorem takeWhile_append_stop (p : Char → Bool) :
    ∀ (xs : Str) (y : Char) (rest : Str), (∀ x ∈ xs, p x = true) → p y = false →
      (xs ++ y :: rest).takeWhile p = xs := by
  intro xs
  induction xs with
  | nil =>
    intro y rest _ hy
    simp [List.takeWhile_cons, hy]
  | cons x xs' ih =>
    intro y rest hall hy
    have hx : p x = true := hall x (by simp)
    simp only [List.cons_append, List.takeWhile_cons, hx, if_true]
    rw [ih y rest (fun a ha => hall a (by simp [ha])) hy]

theorem digitPrefixId_build (ds : Str) (rest : Str) (hne : ds ≠ [])
    (hds : ∀ c ∈ ds, isAsciiDigit c = true) :
    digitPrefixId (ds ++ '_' :: rest) = some (natOfDigits ds) := by
  unfold digitPrefixId
  have ht : (ds ++ '_' :: rest).takeWhile isAsciiDigit = ds :=
    takeWhile_append_stop isAsciiDigit ds '_' rest hds (by decide)
  rw [ht, if_neg hne, List.drop_left ds ('_' :: rest)]
  rfl

theorem digitPrefixId_entryName (i : Nat) (m : Msg) :
    digitPrefixId (entryName i m) = some i := by
  unfold entryName
  rw [digitPrefixId_build (natRepr i) _ (natRepr_ne_nil i) (natRepr_digits i),
    natOfDigits_natRepr]

theorem sanitize_keep (x : Option Str) (c : Char)
    (hc : c ∈ fallback (sanitize_string x) ("no_sender".toList) ∨
          c ∈ fallback (sanitize_string x) ("no_subject".toList)) :
    keepChar c = true ∨ c ∈ ("no_sender".toList ++ "no_subject".toList) := by
  cases x with
  | none =>
    right
    simp only [sanitize_string, fallback] at hc
    rcases hc with hc | hc
    · exact List.mem_append_left _ hc
    · exact List.mem_append_right _ hc
  | some s =>
    simp only [sanitize_string, fallback] at hc
    by_cases he : ((pyStrip (reSub s)).filter keepChar).take 35 = []
    · right
      simp only [he, if_true] at hc
      rcases hc with hc | hc
      · exact List.mem_append_left _ hc
      · exact List.mem_append_right _ hc
    · left
      simp only [he, if_false] at hc
      rcases hc with hc | hc <;>
        exact List.of_mem_filter (List.mem_of_mem_take hc)

theorem entryName_no_slash (i : Nat) (m : Msg) : '/' ∉ entryName i m := by
  unfold entryName
  intro hmem
  rcases List.mem_append.mp hmem with h1 | h2
  · exact absurd (natRepr_digits i '/' h1) (by decide)
  · rcases List.mem_cons.mp h2 with h3 | h4
    · exact absurd h3 (by decide)
    · rcases List.mem_append.mp h4 with h5 | h6
      · rcases sanitize_keep m.fromAddr '/' (Or.inl h5) with h | h
        · exact absurd h (by decide)
        · exact absurd h (by decide)
      · rcases List.mem_cons.mp h6 with h7 | h8
        · exact absurd h7 (by decide)
        · rcases List.mem_cons.mp h8 with h9 | h10
          · exact absurd h9 (by decide)
          · rcases List.mem_append.mp h10 with h11 | h12
            · rcases sanitize_keep m.subject '/' (Or.inr h11) with h | h
              · exact absurd h (by decide)
              · exact absurd h (by decide)
            · exact absurd h12 (by decide)

/-! ## Helper lemmas for C1: storage evolution under writes -/

theorem writeMsg_dirs (args : Args) (mailbox : Str) (st : Storage) (i : Nat)
    (m : Msg) : (writeMsg args mailbox st i m).dirs = st.dirs := by
  unfold writeMsg archiveWrite writeFile
  by_cases hz : args.zip <;> simp [hz]

theorem writeMsg_archiveExists (args : Args) (mailbox : Str) (st : Storage)
    (i : Nat) (m : Msg) (h : st.archiveExists = true) :
    (writeMsg args mailbox st i m).archiveExists = true := by
  unfold writeMsg archiveWrite writeFile
  by_cases hz : args.zip <;> simp [hz, h]

theorem writeMsg_entries_zip (args : Args) (mailbox : Str) (st : Storage)
    (i : Nat) (m : Msg) (hz : args.zip = true) :
    (writeMsg args mailbox st i m).archiveEntries
      = st.archiveEntries ++ [mailbox ++ '/' :: entryName i m] := by
  unfold writeMsg archiveWrite
  simp [hz]

theorem writeMsg_entries_dir (args : Args) (mailbox : Str) (st : Storage)
    (i : Nat) (m : Msg) (hz : args.zip = false) :
    (writeMsg args mailbox st i m).archiveEntries = st.archiveEntries := by
  unfold writeMsg writeFile
  simp [hz]

theorem writeMsg_files_zip (args : Args) (mailbox : Str) (st : Storage)
    (i : Nat) (m : Msg) (hz : args.zip = true) :
    (writeMsg args mailbox st i m).files = st.files := by
  unfold writeMsg archiveWrite
  simp [hz]

theorem writeMsg_files_mono (args : Args) (mailbox : Str) (st : Storage)
    (i : Nat) (m : Msg) :
    ∃ t, (writeMsg args mailbox st i m).files = st.files ++ t := by
  unfold writeMsg archiveWrite writeFile
  by_cases hz : args.zip
  · exact ⟨[], by simp [hz]⟩
  · simp only [hz, Bool.false_eq_true, if_false]
    by_cases hm : (mailboxPath args mailbox, entryName i m) ∈ st.files
    · exact ⟨[], by simp [hm]⟩
    · exact ⟨[(mailboxPath args mailbox, entryName i m)], by simp [hm]⟩

theorem writeMsg_files_self (args : Args) (mailbox : Str) (st : Storage)
    (i : Nat) (m : Msg) (hz : args.zip = false) :
    (mailboxPath args mailbox, entryName i m) ∈ (writeMsg args mailbox st i m).files := by
  unfold writeMsg writeFile
  simp only [hz, Bool.false_eq_true, if_false]
  by_cases hm : (mailboxPath args mailbox, entryName i m) ∈ st.files
  · simp [hm]
  · simp [hm]

theorem writeList_dirs (args : Args) (mailbox : Str) (msgs : Nat → Msg) :
    ∀ (ids : List Nat) (st : Storage),
      (writeList args mailbox msgs ids st).dirs = st.dirs := by
  intro ids
  induction ids with
  | nil => intro st; rfl
  | cons i ids ih =>
    intro st
    show (writeList args mailbox msgs ids (writeMsg args mailbox st i (msgs i))).dirs
      = st.dirs
    rw [ih, writeMsg_dirs]

theorem writeList_archiveExists (args : Args) (mailbox : Str) (msgs : Nat → Msg) :
    ∀ (ids : List Nat) (st : Storage), st.archiveExists = true →
      (writeList args mailbox msgs ids st).archiveExists = true := by
  intro ids
  induction ids with
  | nil => intro st h; exact h
  | cons i ids ih =>
    intro st h
    exact ih (writeMsg args mailbox st i (msgs i))
      (writeMsg_archiveExists args mailbox st i (msgs i) h)

theorem writeList_entries_zip (args : Args) (mailbox : Str) (msgs : Nat → Msg)
    (hz : args.zip = true) :
    ∀ (ids : List Nat) (st : Storage),
      (writeList args mailbox msgs ids st).archiveEntries
        = st.archiveEntries ++ ids.map (fun i => mailbox ++ '/' :: entryName i (msgs i)) := by
  intro ids
  induction ids with
  | nil => intro st; simp [writeList]
  | cons i ids ih =>
    intro st
    show (writeList args mailbox msgs ids (writeMsg args mailbox st i (msgs i))).archiveEntries
      = _
    rw [ih, writeMsg_entries_zip args mailbox st i (msgs i) hz]
    simp

theorem writeList_entries_dir (args : Args) (mailbox : Str) (msgs : Nat → Msg)
    (hz : args.zip = false) :
    ∀ (ids : List Nat) (st : Storage),
      (writeList args mailbox msgs ids st).archiveEntries = st.archiveEntries := by
  intro ids
  induction ids with
  | nil => intro st; rfl
  | cons i ids ih =>
    intro st
    show (writeList args mailbox msgs ids (writeMsg args mailbox st i (msgs i))).archiveEntries
      = _
    rw [ih, writeMsg_entries_dir args mailbox st i (msgs i) hz]

theorem writeList_files_mono (args : Args) (mailbox : Str) (msgs : Nat → Msg) :
    ∀ (ids : List Nat) (st : Storage),
      ∃ t, (writeList args mailbox msgs ids st).files = st.files ++ t := by
  intro ids
  induction ids with
  | nil => intro st; exact ⟨[], by simp [writeList]⟩
  | cons i ids ih =>
    intro st
    rcases ih (writeMsg args mailbox st i (msgs i)) with ⟨t1, ht1⟩
    rcases writeMsg_files_mono args mailbox st i (msgs i) with ⟨t2, ht2⟩
    refine ⟨t2 ++ t1, ?_⟩
    show (writeList args mailbox msgs ids (writeMsg args mailbox st i (msgs i))).files
      = st.files ++ (t2 ++ t1)
    rw [ht1, ht2, List.append_assoc]

theorem writeList_files_self (args : Args) (mailbox : Str) (msgs : Nat → Msg)
    (hz : args.zip = false) :
    ∀ (ids : List Nat) (st : Storage), ∀ i ∈ ids,
      (mailboxPath args mailbox, entryName i (msgs i))
        ∈ (writeList args mailbox msgs ids st).files := by
  intro ids
  induction ids with
  | nil => intro st i hi; simp at hi
  | cons j ids ih =>
    intro st i hi
    rcases List.mem_cons.mp hi with hi | hi
    · subst hi
      rcases writeList_files_mono args mailbox msgs ids
        (writeMsg args mailbox st i (msgs i)) with ⟨t, ht⟩
      show (mailboxPath args mailbox, entryName i (msgs i))
        ∈ (writeList args mailbox msgs ids (writeMsg args mailbox st i (msgs i))).files
      rw [ht]
      exact List.mem_append_left t (writeMsg_files_self args mailbox st i (msgs i) hz)
    · exact ih (writeMsg args mailbox st j (msgs j)) i hi

/-! ## Helper lemmas for C1: inventory-scan membership -/

theorem listdir_mem (st : Storage) (p name : Str) :
    name ∈ listdir st p ↔ (p, name) ∈ st.files := by
  unfold listdir
  rw [List.mem_filterMap]
  constructor
  · rintro ⟨⟨a, b⟩, hm, hab⟩
    by_cases hap : a = p
    · simp only [hap, if_true] at hab
      cases hab
      subst hap
      exact hm
    · simp [hap] at hab
  · intro hm
    exact ⟨(p, name), hm, by simp⟩

theorem scan_mem_dir (args : Args) (mailbox : Str) (st : Storage) (name : Str)
    (i : Nat) (hz : args.zip = false)
    (hf : (mailboxPath args mailbox, name) ∈ st.files)
    (hid : digitPrefixId name = some i) :
    i ∈ (scanInventory args mailbox st).2 := by
  unfold scanInventory
  simp only [hz, Bool.false_eq_true, if_false]
  rw [List.mem_filterMap]
  refine ⟨name, ?_, hid⟩
  rw [listdir_mem]
  exact hf

theorem scan_mem_zip (args : Args) (mailbox : Str) (st : Storage) (name : Str)
    (i : Nat) (hz : args.zip = true)
    (he : (mailbox ++ '/' :: name) ∈ st.archiveEntries)
    (hns : '/' ∉ name)
    (hid : digitPrefixId name = some i) :
    i ∈ (scanInventory args mailbox st).2 := by
  unfold scanInventory
  simp only [hz, if_true]
  rw [List.mem_filterMap]
  have hsplit : (pySplit (mailbox ++ ['/']) (mailbox ++ '/' :: name)).getLastD
      (mailbox ++ '/' :: name) = name := by
    have hassoc : mailbox ++ '/' :: name = (mailbox ++ ['/']) ++ name := by simp
    have hsep : mailbox ++ ['/'] ≠ [] := by simp
    have hnc : containsSub (mailbox ++ ['/']) name = false :=
      containsSub_eq_false _ _ '/' (by simp) hns
    rw [hassoc, pySplit_sep_self_append (mailbox ++ ['/']) name hsep hnc]
    rfl
  refine ⟨name, ?_, hid⟩
  rw [List.mem_map]
  refine ⟨mailbox ++ '/' :: name, ?_, hsplit⟩
  rw [List.mem_filter]
  refine ⟨he, ?_⟩
  exact containsSub_of_leads mailbox _ (leadsList_append_self mailbox ('/' :: name))

theorem scanZip_mem_iff (args : Args) (mailbox : Str) (st : Storage) (n : Nat)
    (hz : args.zip = true) :
    n ∈ (scanInventory args mailbox st).2 ↔
      ∃ e ∈ st.archiveEntries, containsSub mailbox e = true ∧
        digitPrefixId ((pySplit (mailbox ++ ['/']) e).getLastD e) = some n := by
  unfold scanInventory
  simp only [hz, if_true, List.mem_filterMap, List.mem_map, List.mem_filter]
  constructor
  · rintro ⟨a, ⟨e, ⟨he, hc⟩, rfl⟩, hid⟩
    exact ⟨e, he, hc, hid⟩
  · rintro ⟨e, he, hc, hid⟩
    exact ⟨_, ⟨e, ⟨he, hc⟩, rfl⟩, hid⟩

theorem scan_mono_zip (args : Args) (mailbox : Str) (st st2 : Storage) (n : Nat)
    (hz : args.zip = true) (t : List Str)
    (hext : st2.archiveEntries = st.archiveEntries ++ t)
    (hn : n ∈ (scanInventory args mailbox st).2) :
    n ∈ (scanInventory args mailbox st2).2 := by
  rw [scanZip_mem_iff args mailbox st n hz] at hn
  rw [scanZip_mem_iff args mailbox st2 n hz]
  rcases hn with ⟨e, he, hc, hid⟩
  exact ⟨e, by rw [hext]; exact List.mem_append_left t he, hc, hid⟩

theorem scan_mono_dir (args : Args) (mailbox : Str) (st st2 : Storage) (n : Nat)
    (hz : args.zip = false) (t : List (Str × Str))
    (hext : st2.files = st.files ++ t)
    (hn : n ∈ (scanInventory args mailbox st).2) :
    n ∈ (scanInventory args mailbox st2).2 := by
  unfold scanInventory at hn
  simp only [hz, Bool.false_eq_true, if_false] at hn
  rw [List.mem_filterMap] at hn
  rcases hn with ⟨name, hname, hid⟩
  rw [listdir_mem] at hname
  exact scan_mem_dir args mailbox st2 name n hz
    (by rw [hext]; exact List.mem_append_left t hname) hid

/-! ## Helper lemmas for C1: the faithful first run -/

theorem payloadsOf_map (msgs : Nat → Msg) : ∀ chunk : List Nat,
    payloadsOf (chunk.map (fun i => FetchItem.payload (some (msgs i))))
      = chunk.map (fun i => some (msgs i)) := by
  intro chunk
  induction chunk with
  | nil => rfl
  | cons i ids ih =>
    show some (msgs i)
        :: payloadsOf (ids.map (fun j => FetchItem.payload (some (msgs j)))) = _
    rw [ih]
    rfl

theorem msgLoop_faithful (args : Args) (mailbox : Str) (msgs : Nat → Msg)
    (hdry : args.dryRun = false) :
    ∀ (ids : List Nat) (st : Storage),
      msgLoop args mailbox (fun _ => true) ids (ids.map (fun i => some (msgs i))) st
        = (writeList args mailbox msgs ids st, true) := by
  intro ids
  induction ids with
  | nil => intro st; rfl
  | cons i ids ih =>
    intro st
    simp only [List.map_cons, msgLoop, hdry, Bool.false_eq_true, if_false, if_true]
    exact ih (writeMsg args mailbox st i (msgs i))

theorem batchLoop_faithful (args : Args) (mailbox : Str) (msgs : Nat → Msg)
    (events : Nat → BatchEvent) (hdry : args.dryRun = false) :
    ∀ (chunks : List (List Nat)) (k : Nat) (st : Storage),
      (∀ j, events (k + j) = BatchEvent.ok ((chunks.getD j []).map
        (fun i => FetchItem.payload (some (msgs i))))) →
      batchLoop args mailbox (fun _ => true) events chunks k st
        = (writeList args mailbox msgs chunks.flatten st, false, []) := by
  intro chunks
  induction chunks with
  | nil =>
    intro k st _
    simp [batchLoop, writeList]
  | cons chunk rest ih =>
    intro k st hev
    have h0 : events k = BatchEvent.ok (chunk.map
        (fun i => FetchItem.payload (some (msgs i)))) := by
      have := hev 0
      simpa using this
    have hnext : ∀ j, events (k + 1 + j) = BatchEvent.ok ((rest.getD j []).map
        (fun i => FetchItem.payload (some (msgs i)))) := by
      intro j
      have := hev (j + 1)
      rw [show k + (j + 1) = k + 1 + j by omega] at this
      simpa using this
    simp only [batchLoop, h0]
    rw [payloadsOf_map msgs chunk, msgLoop_faithful args mailbox msgs hdry chunk st]
    simp only []
    rw [ih (k + 1) (writeList args mailbox msgs chunk st) hnext]
    simp [List.flatten_cons, writeList, List.foldl_append]

theorem mailboxRun_faithful (args : Args) (msgs : Nat → Msg) (mailbox : Str)
    (count : Nat) (st : Storage) (hall : args.all = false)
    (hdry : args.dryRun = false) :
    mailboxRun args (fun _ => true)
        (faithfulEventsFor (chunkList args.batchSize
          (fetchPlan false count (scanInventory args mailbox st).2)) msgs)
        mailbox count st
      = (writeList args mailbox msgs
          (chunkList args.batchSize
            (fetchPlan false count (scanInventory args mailbox st).2)).flatten
          (scanInventory args mailbox st).1, false, []) := by
  unfold mailboxRun
  simp only [hall, Bool.false_eq_true, if_false]
  exact batchLoop_faithful args mailbox msgs _ hdry _ 0 _ (fun j => by
    simp [faithfulEventsFor])

theorem storage_set_archiveExists (st : Storage) (h : st.archiveExists = true) :
    ({ st with archiveExists := true } : Storage) = st := by
  cases st
  simp_all

theorem mkdirP_of_mem (st : Storage) (p : Str) (h : p ∈ st.dirs) :
    mkdirP st p = st := by
  unfold mkdirP
  rw [List.insert_of_mem h]

theorem scanInventory_fix (args : Args) (mailbox : Str) (st : Storage)
    (hzf : args.zip = true → st.archiveExists = true)
    (hdf : args.zip = false → mailboxPath args mailbox ∈ st.dirs) :
    (scanInventory args mailbox st).1 = st := by
  unfold scanInventory
  by_cases hz : args.zip = true
  · simp only [hz, if_true]
    exact storage_set_archiveExists st (hzf hz)
  · have hz' : args.zip = false := by
      cases h : args.zip with
      | true => exact absurd h hz
      | false => rfl
    simp only [hz', Bool.false_eq_true, if_false]
    exact mkdirP_of_mem st _ (hdf hz')

theorem mailboxRun_empty_plan (args : Args) (writeOk : Str → Bool)
    (events : Nat → BatchEvent) (mailbox : Str) (count : Nat) (st : Storage)
    (hall : args.all = false)
    (hfix : (scanInventory args mailbox st).1 = st)
    (hplan : fetchPlan false count (scanInventory args mailbox st).2 = []) :
    mailboxRun args writeOk events mailbox count st = (st, false, []) := by
  unfold mailboxRun
  simp only [hall, Bool.false_eq_true, if_false]
  rw [hplan, chunkList_nil, hfix]
  rfl

theorem scanInventory_zip_ae (args : Args) (mailbox : Str) (st : Storage)
    (hz : args.zip = true) :
    (scanInventory args mailbox st).1.archiveExists = true := by
  unfold scanInventory
  simp [hz]

theorem scanInventory_dir_dirs (args : Args) (mailbox : Str) (st : Storage)
    (hz : args.zip = false) :
    (scanInventory args mailbox st).1.dirs
      = st.dirs.insert (mailboxPath args mailbox) := by
  unfold scanInventory mkdirP
  simp [hz]

/-- C1.  Idempotence of a run without the refetch-all flag: start the first
pass against an unchanged mailbox of `count` messages with a well-behaved
server (`ev1` faithful for the first pass's own plan) and reliable storage;
then every sequence number the first pass persisted is found by the second
pass's inventory scan, the second pass's fetch plan is empty, and the second
pass — under ANY environment — leaves the storage backend (directory or
archive) exactly unchanged and writes nothing. -/
theorem C1_idempotent (args : Args) (mailbox : Str) (msgs : Nat → Msg)
    (count : Nat) (st0 : Storage) (ev1 : Nat → BatchEvent) (st1 : Storage)
    (hall : args.all = false) (hdry : args.dryRun = false)
    (hB : 1 ≤ args.batchSize)
    (hev1 : ev1 = faithfulEventsFor (chunkList args.batchSize
      (fetchPlan false count (scanInventory args mailbox st0).2)) msgs)
    (hst1 : st1 = (mailboxRun args (fun _ => true) ev1 mailbox count st0).1) :
    (∀ i ∈ fetchPlan false count (scanInventory args mailbox st0).2,
        i ∈ (scanInventory args mailbox st1).2)
    ∧ fetchPlan false count (scanInventory args mailbox st1).2 = []
    ∧ (∀ (events2 : Nat → BatchEvent) (writeOk2 : Str → Bool),
        mailboxRun args writeOk2 events2 mailbox count st1 = (st1, false, [])) := by
  subst hev1
  have hst1' : st1 = writeList args mailbox msgs
      (fetchPlan false count (scanInventory args mailbox st0).2)
      (scanInventory args mailbox st0).1 := by
    rw [hst1, mailboxRun_faithful args msgs mailbox count st0 hall hdry,
      chunkList_flatten args.batchSize hB]
  clear hst1
  have hgoal1 : ∀ i ∈ fetchPlan false count (scanInventory args mailbox st0).2,
      i ∈ (scanInventory args mailbox st1).2 := by
    intro i hi
    by_cases hz : args.zip = true
    · have hent : st1.archiveEntries
          = (scanInventory args mailbox st0).1.archiveEntries
            ++ (fetchPlan false count (scanInventory args mailbox st0).2).map
              (fun j => mailbox ++ '/' :: entryName j (msgs j)) := by
        rw [hst1']
        exact writeList_entries_zip args mailbox msgs hz _ _
      refine scan_mem_zip args mailbox st1 (entryName i (msgs i)) i hz ?_
        (entryName_no_slash i (msgs i)) (digitPrefixId_entryName i (msgs i))
      rw [hent]
      refine List.mem_append_right _ ?_
      rw [List.mem_map]
      exact ⟨i, hi, rfl⟩
    · have hz' : args.zip = false := by
        cases h : args.zip with
        | true => exact absurd h hz
        | false => rfl
      refine scan_mem_dir args mailbox st1 (entryName i (msgs i)) i hz' ?_
        (digitPrefixId_entryName i (msgs i))
      rw [hst1']
      exact writeList_files_self args mailbox msgs hz' _ _ i hi
  have hgoal2 : fetchPlan false count (scanInventory args mailbox st1).2 = [] := by
    unfold fetchPlan
    simp only [Bool.false_eq_true, if_false]
    rw [List.filter_eq_nil_iff]
    intro a ha
    simp only [decide_eq_true_eq, Decidable.not_not]
    by_cases hmem : a ∈ fetchPlan false count (scanInventory args mailbox st0).2
    · exact hgoal1 a hmem
    · have ha0 : a ∈ (scanInventory args mailbox st0).2 := by
        unfold fetchPlan at hmem
        simp only [Bool.false_eq_true, if_false, List.mem_filter,
          decide_eq_true_eq] at hmem
        by_contra hno
        exact hmem ⟨ha, hno⟩
      by_cases hz : args.zip = true
      · have hent : st1.archiveEntries
            = st0.archiveEntries
              ++ (fetchPlan false count (scanInventory args mailbox st0).2).map
                (fun j => mailbox ++ '/' :: entryName j (msgs j)) := by
          rw [hst1', writeList_entries_zip args mailbox msgs hz _ _,
            (scanInventory_frame args mailbox st0).2]
        exact scan_mono_zip args mailbox st0 st1 a hz _ hent ha0
      · have hz' : args.zip = false := by
          cases h : args.zip with
          | true => exact absurd h hz
          | false => rfl
        rcases writeList_files_mono args mailbox msgs
          (fetchPlan false count (scanInventory args mailbox st0).2)
          (scanInventory args mailbox st0).1 with ⟨t, ht⟩
        have hfiles : st1.files = st0.files ++ t := by
          rw [hst1', ht, (scanInventory_frame args mailbox st0).1]
        exact scan_mono_dir args mailbox st0 st1 a hz' t hfiles ha0
  refine ⟨hgoal1, hgoal2, ?_⟩
  intro events2 writeOk2
  refine mailboxRun_empty_plan args writeOk2 events2 mailbox count st1 hall ?_ hgoal2
  refine scanInventory_fix args mailbox st1 ?_ ?_
  · intro hz
    rw [hst1']
    exact writeList_archiveExists args mailbox msgs _ _
      (scanInventory_zip_ae args mailbox st0 hz)
  · intro hz
    have : st1.dirs = st0.dirs.insert (mailboxPath args mailbox) := by
      rw [hst1', writeList_dirs, scanInventory_dir_dirs args mailbox st0 hz]
    rw [this]
    exact List.mem_insert_self _ _

/-- Witness for C1: a two-message INBOX in directory mode, batch size 2. -/
theorem C1_idempotent_witness :
    fetchPlan false 2 ((scanInventory
        ⟨"d".toList, [], [], false, 2, false, false, false⟩ ("INBOX".toList)
        (mailboxRun ⟨"d".toList, [], [], false, 2, false, false, false⟩
          (fun _ => true)
          (faithfulEventsFor (chunkList 2 (fetchPlan false 2 (scanInventory
            ⟨"d".toList, [], [], false, 2, false, false, false⟩ ("INBOX".toList)
            ⟨false, [], [], []⟩).2)) (fun _ => ⟨none, none⟩))
          ("INBOX".toList) 2 ⟨false, [], [], []⟩).1).2) = [] :=
  (C1_idempotent ⟨"d".toList, [], [], false, 2, false, false, false⟩
      ("INBOX".toList) (fun _ => ⟨none, none⟩) 2 ⟨false, [], [], []⟩
      (faithfulEventsFor (chunkList 2 (fetchPlan false 2 (scanInventory
        ⟨"d".toList, [], [], false, 2, false, false, false⟩ ("INBOX".toList)
        ⟨false, [], [], []⟩).2)) (fun _ => ⟨none, none⟩))
      (mailboxRun ⟨"d".toList, [], [], false, 2, false, false, false⟩
        (fun _ => true)
        (faithfulEventsFor (chunkList 2 (fetchPlan false 2 (scanInventory
          ⟨"d".toList, [], [], false, 2, false, false, false⟩ ("INBOX".toList)
          ⟨false, [], [], []⟩).2)) (fun _ => ⟨none, none⟩))
        ("INBOX".toList) 2 ⟨false, [], [], []⟩).1
      rfl rfl (by decide) rfl rfl).2.1
